import Mathlib

/-!
Shallow embedding of mtojson (src/mtojson.c, src/mtojson.h), a minimal
allocation-free JSON serializer, together with proofs of the specified
properties.

Modelling conventions:
* The output buffer is modelled as the list of bytes written so far
  (`GState.out`); the C cursor `out` always points one past the last
  written byte, so the written prefix is exactly that list.
* The C global `remaining_length` is the field `GState.rem`.
* A C generator function `char* gen_x(char *out, const void *val)` that
  returns `NULL` on failure becomes a Lean function `GState → Res`, where
  `Res.fail st` records the bytes already written when the failure
  occurred (the C code never writes after a failure is signalled, it only
  propagates the NULL cursor).
* C strings (`char *`) are `List Char`; a `NULL` pointer is `PtrVal.vnull`.
* `unsigned` values are `Nat` (the stored value is < 2^32 on the test
  platform; `utoa` only sees the stored value), `int` values are `Int`
  with the two's-complement wrap of the C casts made explicit via `% 2^32`.
-/

namespace Mtojson

/-- Writer state: bytes written so far and the global `remaining_length`
counter of mtojson.c (line 36). -/
structure GState where
  out : List Char
  rem : Nat
deriving Repr, DecidableEq

/-- Result of a generator: the C functions return the advanced cursor or
`NULL`. `fail` keeps the state at the moment of failure so that the bytes
already written remain observable. -/
inductive Res where
  | ok (st : GState)
  | fail (st : GState)
deriving Repr, DecidableEq

/-- The state carried by a result, whether it succeeded or failed. -/
def Res.state : Res → GState
  | .ok st => st
  | .fail st => st

/-- Failure propagation: the C code checks `if (!out) return NULL;` after
every nested generator call. -/
def Res.bind (r : Res) (f : GState → Res) : Res :=
  match r with
  | .ok st => f st
  | .fail st => .fail st

/-- Whether a result is a failure (a `NULL` cursor in C). -/
def Res.isFail : Res → Bool
  | .ok _ => false
  | .fail _ => true

/-- Append bytes to the output without touching the capacity counter; used
for bytes whose budget was already reserved by `reduce_rem_len` (e.g. the
brackets written by `*out++ = '['`). -/
def writeR (s : List Char) (st : GState) : GState :=
  { st with out := st.out ++ s }

/-- mtojson.c lines 38-45: decrement `remaining_length` by `len`, failing
if fewer than `len` bytes remain. -/
def reduce_rem_len (len : Nat) (st : GState) : Option GState :=
  if st.rem < len then none else some { st with rem := st.rem - len }

/-- mtojson.c lines 47-54: reserve `len` bytes then copy them; on failure
nothing is written. -/
def strcpy_val (val : List Char) (st : GState) : Res :=
  match reduce_rem_len val.length st with
  | none => .fail st
  | some st1 => .ok (writeR val st1)

/-- The recurring reserve-then-bracket idiom of mtojson.c: reserve the
budget for `pre ++ post` up front (e.g. `reduce_rem_len(2) /* [] */`),
write `pre`, run the body, and write `post` only if the body succeeded. -/
def bracketR (pre post : List Char) (body : GState → Res) (st : GState) : Res :=
  match reduce_rem_len (pre.length + post.length) st with
  | none => .fail st
  | some st1 => Res.bind (body (writeR pre st1)) fun st2 => .ok (writeR post st2)

/-- mtojson.c lines 56-61 (`gen_null`): emit the literal `null`. -/
def gen_null_st (st : GState) : Res :=
  strcpy_val ['n', 'u', 'l', 'l'] st

/-- Digit table of `utoa` (mtojson.c line 137): `"0123456789ABCDEF"`. -/
def uDigit (n : Nat) : Char :=
  [ '0', '1', '2', '3', '4', '5', '6', '7', '8', '9',
    'A', 'B', 'C', 'D', 'E', 'F' ].getD n '0'

/-- The digit string produced by `utoa` (mtojson.c lines 122-140): most
significant digit first, one digit for `n < base`, no leading zeros. The
guard `base < 2` is never exercised (the code only uses bases 10 and 16)
and only makes termination evident. -/
def utoaChars (base : Nat) (n : Nat) : List Char :=
  if base < 2 then []
  else if n < base then [uDigit n]
  else utoaChars base (n / base) ++ [uDigit (n % base)]
termination_by n
decreasing_by
  exact Nat.div_lt_self (by omega) (by omega)

/-- mtojson.c lines 122-140 (`utoa`): count the digits, reserve that many
bytes, then write the digits. Net effect: an all-or-nothing copy of the
digit string. -/
def utoa (n base : Nat) (st : GState) : Res :=
  strcpy_val (utoaChars base n) st

/-- mtojson.h lines 11-22 (`enum json_to_type`); the constructor order is
the `gen_functions` dispatch-table order of mtojson.c lines 23-34 (the
shipped mtojson.c spells the integer tags `t_to_integer`/`t_to_uinteger`). -/
inductive JType where
  | t_to_primitive
  | t_to_array
  | t_to_boolean
  | t_to_hex
  | t_to_integer
  | t_to_null
  | t_to_object
  | t_to_string
  | t_to_uinteger
  | t_to_value
deriving Repr, DecidableEq

mutual
/-- The datum behind a `to_json.value` pointer (`const void *`), read
according to `vtype`/`count` exactly as mtojson.c casts it:
`vnull` is a `NULL` pointer; `vstr` a `char *`; `vnodes` a pointer into a
sentinel-terminated `struct to_json` array; `vnode` a pointer to a single
node (the cast in `gen_primitive`); the `v*s` constructors are the counted
C-array runs of `gen_c_array` (`vnodeps` for `t_to_array`/`t_to_object`
runs of possibly-NULL pointers, each to a sentinel-terminated array). -/
inductive PtrVal where
  | vnull
  | vbool (b : Bool)
  | vuns (u : Nat)
  | vint (i : Int)
  | vstr (s : List Char)
  | vnode (n : Node)
  | vnodes (ns : List Node)
  | vbools (l : List Bool)
  | vunss (l : List Nat)
  | vints (l : List Int)
  | vstrs (l : List (Option (List Char)))
  | vnodeps (l : List (Option (List Node)))

/-- mtojson.h lines 24-30 (`struct to_json`). `name` is `NULL` or a key
string; `count` is `NULL` or a pointer to the element count of a C-array
run; the run's elements live in `value`. -/
inductive Node where
  | mk (name : Option (List Char)) (value : PtrVal) (count : Option Nat)
       (stype : JType) (vtype : JType)
end

/-- Field accessor for `to_json.name`. -/
def Node.name : Node → Option (List Char)
  | .mk n _ _ _ _ => n

/-- Field accessor for `to_json.value`. -/
def Node.value : Node → PtrVal
  | .mk _ v _ _ _ => v

/-- Field accessor for `to_json.count`. -/
def Node.count : Node → Option Nat
  | .mk _ _ c _ _ => c

/-- Field accessor for `to_json.stype`. -/
def Node.stype : Node → JType
  | .mk _ _ _ s _ => s

/-- Field accessor for `to_json.vtype`. -/
def Node.vtype : Node → JType
  | .mk _ _ _ _ t => t

/-- Whether this pointer is `NULL` (the `if (!val)` tests). -/
def PtrVal.isNull : PtrVal → Bool
  | .vnull => true
  | _ => false

/-- mtojson.c lines 63-73 (`gen_boolean`): `NULL` renders `null`;
otherwise the literal `true` or `false`. Reading any non-bool datum
through the `_Bool*` cast is caller UB and is modelled as failure. -/
def gen_boolean (v : PtrVal) (st : GState) : Res :=
  match v with
  | .vnull => gen_null_st st
  | .vbool b =>
      if b then strcpy_val ['t', 'r', 'u', 'e'] st
      else strcpy_val ['f', 'a', 'l', 's', 'e'] st
  | _ => .fail st

/-- mtojson.c lines 142-157 (`gen_hex`): `NULL` renders `null`; otherwise
reserve the two quotes, then the uppercase base-16 digits between them. -/
def gen_hex (v : PtrVal) (st : GState) : Res :=
  match v with
  | .vnull => gen_null_st st
  | .vuns u => bracketR ['"'] ['"'] (utoa u 16) st
  | _ => .fail st

/-- mtojson.c lines 159-177 (`gen_integer`): `NULL` renders `null`;
otherwise `unsigned u = (unsigned)n` (two's-complement wrap, made explicit
as `% 2^32`), and for a negative `n` reserve and write `'-'` and negate in
unsigned arithmetic (`u = -(unsigned)n`), then emit decimal digits. -/
def gen_integer (v : PtrVal) (st : GState) : Res :=
  match v with
  | .vnull => gen_null_st st
  | .vint i =>
      let u : Nat := (i % (2 ^ 32 : Int)).toNat
      if i < 0 then
        bracketR ['-'] [] (utoa ((2 ^ 32 - u) % 2 ^ 32) 10) st
      else
        utoa u 10 st
  | _ => .fail st

/-- mtojson.c lines 179-186 (`gen_uinteger`): `NULL` renders `null`;
otherwise decimal digits of the unsigned value. -/
def gen_uinteger (v : PtrVal) (st : GState) : Res :=
  match v with
  | .vnull => gen_null_st st
  | .vuns u => utoa u 10 st
  | _ => .fail st

/-- mtojson.c lines 188-192 (`gen_value`): copy the raw bytes verbatim,
unquoted and unescaped. There is no `NULL` check: `strlen(NULL)` is
undefined behaviour, modelled as failure, so a non-`NULL` pointer is a
precondition of this formatter. -/
def gen_value (v : PtrVal) (st : GState) : Res :=
  match v with
  | .vstr s => strcpy_val s st
  | _ => .fail st

/-- Index of the first `'"'` or `'\\'` in the string: the nearest match
found by the two `strchr` scans of `gen_string` (mtojson.c lines 90-100). -/
def findEsc : List Char → Option Nat
  | [] => none
  | c :: cs =>
      if c = '"' ∨ c = '\\' then some 0
      else (findEsc cs).map (· + 1)

theorem findEsc_lt_length {s : List Char} {i : Nat} (h : findEsc s = some i) :
    i < s.length := by
  induction s generalizing i with
  | nil => simp [findEsc] at h
  | cons c cs ih =>
      simp only [findEsc] at h
      split at h
      · simp at h
        simp [List.length_cons]
        omega
      · match h' : findEsc cs with
        | none => rw [h'] at h; simp at h
        | some j =>
            rw [h'] at h
            simp at h
            have := ih h'
            simp [List.length_cons, ← h]
            omega

/-- The copy loop of `gen_string` (mtojson.c lines 90-116): find the
nearest character to escape, copy the unescaped run before it in one
all-or-nothing `strcpy_val`, emit the backslash pair, and repeat while an
escape was found and characters remain; without an escape, copy the rest. -/
def gen_string_loop (s : List Char) (st : GState) : Res :=
  match h : findEsc s with
  | none => strcpy_val s st
  | some i =>
      Res.bind (strcpy_val (s.take i) st) fun st1 =>
        Res.bind (strcpy_val ['\\', s.getD i ' '] st1) fun st2 =>
          if (s.drop (i + 1)).isEmpty then .ok st2
          else gen_string_loop (s.drop (i + 1)) st2
termination_by s.length
decreasing_by
  have := findEsc_lt_length h
  simp [List.length_drop]
  omega

/-- mtojson.c lines 75-120 (`gen_string`): `NULL` renders `null`;
otherwise reserve the surrounding quotes, write the opening quote, run the
escape-copy loop, and write the closing quote. -/
def gen_string (v : PtrVal) (st : GState) : Res :=
  match v with
  | .vnull => gen_null_st st
  | .vstr s => bracketR ['"'] ['"'] (gen_string_loop s) st
  | _ => .fail st

/-- Map a possibly-`NULL` `char *` run element to the pointer it is passed
as (`gen_c_array` cases `t_to_string`/`t_to_value`). -/
def optStrPtr (o : Option (List Char)) : PtrVal :=
  match o with
  | none => .vnull
  | some s => .vstr s

/-- The per-element loop shared by the scalar cases of `gen_c_array`
(mtojson.c lines 236-311), with `gen_array_type` (lines 194-207) inlined:
emit the element with formatter `f`, then `", "` unless it is the last of
the `cnt` counted elements. A run shorter than the count would read out of
bounds in C and is modelled as failure. -/
def gen_carr_run {α : Type} (f : PtrVal → GState → Res) (inj : α → PtrVal) :
    List α → Nat → GState → Res
  | _, 0, st => .ok st
  | [], _ + 1, st => .fail st
  | a :: rest, c + 1, st =>
      Res.bind (f (inj a) st) fun st1 =>
        if c = 0 then .ok st1
        else Res.bind (strcpy_val [',', ' '] st1) fun st2 =>
               gen_carr_run f inj rest c st2

mutual
/-- Dispatch through the `gen_functions` table (mtojson.c lines 23-34):
`gen_functions[t](out, v)`. -/
def gen_funcall (t : JType) (v : PtrVal) (st : GState) : Res :=
  match t with
  | .t_to_primitive => gen_primitive v st
  | .t_to_array => gen_array v st
  | .t_to_boolean => gen_boolean v st
  | .t_to_hex => gen_hex v st
  | .t_to_integer => gen_integer v st
  | .t_to_null => gen_null_st st
  | .t_to_object => gen_object v st
  | .t_to_string => gen_string v st
  | .t_to_uinteger => gen_uinteger v st
  | .t_to_value => gen_value v st

termination_by 2 * sizeOf v + 1
decreasing_by all_goals simp_wf <;> omega

/-- mtojson.c lines 322-350 (`gen_array`): `NULL` renders `null`;
otherwise reserve `[]`, write `[`, run the sibling loop over the
sentinel-terminated node list, write `]`. A non-node datum behind the
pointer is caller UB, modelled as failure. -/
def gen_array (v : PtrVal) (st : GState) : Res :=
  match v with
  | .vnull => gen_null_st st
  | .vnodes ns => bracketR ['['] [']'] (fun st1 => gen_array_loop ns st1) st
  | _ => .fail st

termination_by 2 * sizeOf v
decreasing_by all_goals simp_wf <;> omega

/-- The `while (tjs->value)` loop of `gen_array` (mtojson.c lines
333-347): a node with `NULL` `value` is the sentinel; each element is a
counted run (`count` set) or a single value dispatched on `vtype`; `", "`
is written when the next sibling is not the sentinel. -/
def gen_array_loop (ns : List Node) (st : GState) : Res :=
  match ns with
  | [] => .ok st
  | .mk nm v cnt sty vty :: rest =>
      if v.isNull then .ok st
      else
        Res.bind
          (if cnt.isSome then gen_c_array (.mk nm v cnt sty vty) st
           else gen_funcall vty v st) fun st1 =>
          match rest with
          | [] => .ok st1
          | m :: tl =>
              if m.value.isNull then .ok st1
              else Res.bind (strcpy_val [',', ' '] st1) fun st2 =>
                     gen_array_loop (m :: tl) st2

termination_by 2 * sizeOf ns
decreasing_by all_goals simp_wf <;> omega

/-- mtojson.c lines 352-393 (`gen_object`): `NULL` renders `null`;
otherwise reserve `{}`, write `{`, run the field loop over the
sentinel-terminated node list, write `}`. -/
def gen_object (v : PtrVal) (st : GState) : Res :=
  match v with
  | .vnull => gen_null_st st
  | .vnodes ns => bracketR ['{'] ['}'] (fun st1 => gen_object_loop ns st1) st
  | _ => .fail st

termination_by 2 * sizeOf v
decreasing_by all_goals simp_wf <;> omega

/-- The `while (tjs->name)` loop of `gen_object` (mtojson.c lines
364-389): a node with `NULL` `name` is the sentinel; for each field,
reserve `strlen(name) + 4` and write `"name": `, generate the value via
`gen_json`, and write `", "` when the next sibling is not the sentinel. -/
def gen_object_loop (ns : List Node) (st : GState) : Res :=
  match ns with
  | [] => .ok st
  | n :: rest =>
      match n.name with
      | none => .ok st
      | some nm =>
          Res.bind (strcpy_val ('"' :: (nm ++ ['"', ':', ' '])) st) fun st1 =>
            Res.bind (gen_json n st1) fun st2 =>
              match rest with
              | [] => .ok st2
              | m :: tl =>
                  if m.name.isSome then
                    Res.bind (strcpy_val [',', ' '] st2) fun st3 =>
                      gen_object_loop (m :: tl) st3
                  else .ok st2

termination_by 2 * sizeOf ns
decreasing_by all_goals simp_wf <;> omega

/-- mtojson.c lines 209-320 (`gen_c_array`): reserve `[]`, write `[`; a
zero count closes the array immediately; otherwise emit the counted
homogeneous run and close. -/
def gen_c_array (n : Node) (st : GState) : Res :=
  match n with
  | .mk _ v cnt _ vty =>
      bracketR ['['] [']']
        (fun st1 =>
          if cnt.getD 0 = 0 then .ok st1
          else gen_c_body vty v (cnt.getD 0) st1) st

termination_by 2 * sizeOf n
decreasing_by all_goals simp_wf <;> omega

/-- The `switch (tjs->vtype)` of `gen_c_array` (mtojson.c lines 224-316):
reinterpret the run pointer according to the element type and loop over
the `count` elements; `t_to_null` and `t_to_primitive` elements are a hard
failure (`return NULL`, lines 313-315). A run datum that does not match
the element type is caller UB, modelled as failure. -/
def gen_c_body (t : JType) (v : PtrVal) (cnt : Nat) (st : GState) : Res :=
  match t with
  | .t_to_array =>
      match v with
      | .vnodeps l => gen_carr_nodeps true l cnt st
      | _ => .fail st
  | .t_to_object =>
      match v with
      | .vnodeps l => gen_carr_nodeps false l cnt st
      | _ => .fail st
  | .t_to_boolean =>
      match v with
      | .vbools l => gen_carr_run gen_boolean PtrVal.vbool l cnt st
      | _ => .fail st
  | .t_to_hex =>
      match v with
      | .vunss l => gen_carr_run gen_hex PtrVal.vuns l cnt st
      | _ => .fail st
  | .t_to_integer =>
      match v with
      | .vints l => gen_carr_run gen_integer PtrVal.vint l cnt st
      | _ => .fail st
  | .t_to_string =>
      match v with
      | .vstrs l => gen_carr_run gen_string optStrPtr l cnt st
      | _ => .fail st
  | .t_to_uinteger =>
      match v with
      | .vunss l => gen_carr_run gen_uinteger PtrVal.vuns l cnt st
      | _ => .fail st
  | .t_to_value =>
      match v with
      | .vstrs l => gen_carr_run gen_value optStrPtr l cnt st
      | _ => .fail st
  | .t_to_null => .fail st
  | .t_to_primitive => .fail st

termination_by 2 * sizeOf v + 1
decreasing_by all_goals simp_wf <;> omega

/-- The `t_to_array`/`t_to_object` cases of `gen_c_array` (mtojson.c lines
225-234 and 269-278): each run element is a possibly-`NULL` pointer to a
sentinel-terminated node list, passed to `gen_array` resp. `gen_object`. -/
def gen_carr_nodeps (isArr : Bool) (l : List (Option (List Node))) (cnt : Nat)
    (st : GState) : Res :=
  match cnt, l with
  | 0, _ => .ok st
  | _ + 1, [] => .fail st
  | c + 1, none :: rest =>
      Res.bind (if isArr then gen_array .vnull st else gen_object .vnull st)
        fun st1 => gen_carr_sep isArr rest c st1
  | c + 1, some ns :: rest =>
      Res.bind
        (if isArr then gen_array (.vnodes ns) st else gen_object (.vnodes ns) st)
        fun st1 => gen_carr_sep isArr rest c st1

termination_by 2 * sizeOf l
decreasing_by all_goals simp_wf <;> omega

/-- Separator step of the node-pointer run: `", "` unless the element just
emitted was the last counted one (`gen_array_type`, mtojson.c lines
194-207). -/
def gen_carr_sep (isArr : Bool) (rest : List (Option (List Node))) (c : Nat)
    (st1 : GState) : Res :=
  if c = 0 then .ok st1
  else Res.bind (strcpy_val [',', ' '] st1) fun st2 =>
         gen_carr_nodeps isArr rest c st2

termination_by 2 * sizeOf rest + 1
decreasing_by all_goals simp_wf <;> omega

/-- mtojson.c lines 405-413 (`gen_json`): a node with `count` set is a
counted run, otherwise dispatch on `vtype`. -/
def gen_json (n : Node) (st : GState) : Res :=
  match n with
  | .mk nm v cnt sty vty =>
      if cnt.isSome then gen_c_array (.mk nm v cnt sty vty) st
      else gen_funcall vty v st

termination_by 2 * sizeOf n + 1
decreasing_by all_goals simp_wf <;> omega

/-- mtojson.c lines 395-403 (`gen_primitive`) as reached through the
dispatch table: the `void *` argument is cast back to a node pointer; a
`NULL` or non-node pointer is caller UB, modelled as failure. -/
def gen_primitive (v : PtrVal) (st : GState) : Res :=
  match v with
  | .vnode (.mk nm v' cnt sty vty) =>
      if cnt.isSome then gen_c_array (.mk nm v' cnt sty vty) st
      else gen_funcall vty v' st
  | _ => .fail st
termination_by 2 * sizeOf v
decreasing_by all_goals simp_wf <;> omega
end

/-- The call `gen_primitive(out, tjs)` made by `json_generate` (mtojson.c
line 432) with the root node itself: body of lines 395-403. -/
def gen_primitive_root (n : Node) (st : GState) : Res :=
  match n with
  | .mk nm v cnt sty vty =>
      if cnt.isSome then gen_c_array (.mk nm v cnt sty vty) st
      else gen_funcall vty v st

/-- mtojson.c lines 415-450 (`json_generate`). The caller passes a pointer
to the first entry of a sentinel-terminated `struct to_json` array, here
the list `tjs`; for an `array`/`object` root the whole list is the
sibling list handed to `gen_array`/`gen_object`, for a `primitive` root
only the first node is read. Returns `(success, return value, buffer
contents)`: `remaining_length` is initialised to `len`, one byte is
reserved for the terminating `NUL`, scalar root `stype`s return 0 from the
switch, any `NULL` cursor returns 0, and on success the `NUL` is written
after the last byte and the byte count before it is returned. An empty
list would dereference the root pointer in C and yields the failure
result. -/
def json_generate_x (tjs : List Node) (len : Nat) : Bool × Nat × List Char :=
  match tjs with
  | [] => (false, 0, [])
  | root :: _ =>
      match reduce_rem_len 1 ⟨[], len⟩ with
      | none => (false, 0, [])
      | some st1 =>
          let r : Res :=
            match root.stype with
            | .t_to_array => gen_array (.vnodes tjs) st1
            | .t_to_object => gen_object (.vnodes tjs) st1
            | .t_to_primitive => gen_primitive_root root st1
            | _ => .fail st1
          match r with
          | .fail st => (false, 0, st.out)
          | .ok st => (true, st.out.length, st.out ++ ['\x00'])

/-- The observable interface of `json_generate`: the returned `size_t`
(0 on failure) and the bytes written into the buffer. -/
def json_generate (tjs : List Node) (len : Nat) : Nat × List Char :=
  ((json_generate_x tjs len).2.1, (json_generate_x tjs len).2.2)

/-! ## The capacity-threshold specification

Each generator, on a fixed input, either always fails (for inputs the code
rejects regardless of capacity) or emits one fixed byte string `w`: it
succeeds exactly when `w.length` bytes remain, appending `w` and spending
exactly `w.length` capacity, and fails otherwise. On every failure the
bytes written plus the capacity left never exceed what was available. -/
def SpecAt (res : Res) (r : Option (List Char)) (st : GState) : Prop :=
  match r with
  | some w =>
      (w.length ≤ st.rem → res = .ok ⟨st.out ++ w, st.rem - w.length⟩) ∧
      (st.rem < w.length →
        ∃ st', res = .fail st' ∧
          st'.out.length + st'.rem ≤ st.out.length + st.rem)
  | none =>
      ∃ st', res = .fail st' ∧
        st'.out.length + st'.rem ≤ st.out.length + st.rem

/-- A generator satisfies its emission result at every state. -/
def Spec (f : GState → Res) (r : Option (List Char)) : Prop :=
  ∀ st : GState, SpecAt (f st) r st

theorem spec_strcpy (s : List Char) : Spec (strcpy_val s) (some s) := by
  intro st
  refine ⟨fun h => ?_, fun h => ?_⟩
  · simp [strcpy_val, reduce_rem_len, writeR, Nat.not_lt.mpr h]
  · exact ⟨st, by simp [strcpy_val, reduce_rem_len, h], by omega⟩

theorem spec_ok : Spec (fun st => .ok st) (some []) := by
  intro st
  exact ⟨fun _ => by cases st <;> simp, fun h => by simp at h⟩

theorem spec_fail : Spec (fun st => .fail st) none := by
  intro st
  exact ⟨st, rfl, le_rfl⟩

/-- Sequencing two specified computations: the C pattern
`out = f(...); if (!out) return NULL; out = g(...)`. -/
theorem spec_bind {f g : GState → Res} {rf rg : Option (List Char)}
    (hf : Spec f rf) (hg : Spec g rg) :
    Spec (fun st => Res.bind (f st) g)
      (rf.bind fun w1 => rg.map fun w2 => w1 ++ w2) := by
  intro st
  match rf with
  | none =>
      obtain ⟨st', hfs, hb⟩ := hf st
      exact ⟨st', by simp [hfs, Res.bind], hb⟩
  | some w1 =>
      match rg with
      | none =>
          simp only [Option.bind_some, Option.map_none]
          rcases Nat.lt_or_ge st.rem w1.length with h | h
          · obtain ⟨st', hfs, hb⟩ := (hf st).2 h
            exact ⟨st', by simp [hfs, Res.bind], hb⟩
          · have hok := (hf st).1 h
            obtain ⟨st', hgs, hb⟩ := hg ⟨st.out ++ w1, st.rem - w1.length⟩
            refine ⟨st', by simp [hok, Res.bind, hgs], ?_⟩
            simp at hb
            omega
      | some w2 =>
          simp only [Option.bind_some, Option.map_some]
          refine ⟨fun h => ?_, fun h => ?_⟩
          · simp only [List.length_append] at h
            have h1 : w1.length ≤ st.rem := by omega
            have hok := (hf st).1 h1
            have h2 : w2.length ≤ st.rem - w1.length := by omega
            have hok2 := (hg ⟨st.out ++ w1, st.rem - w1.length⟩).1 h2
            simp only [Res.bind, hok, hok2, Res.ok.injEq, GState.mk.injEq,
              List.length_append]
            exact ⟨by simp, by omega⟩
          · simp only [List.length_append] at h
            rcases Nat.lt_or_ge st.rem w1.length with h1 | h1
            · obtain ⟨st', hfs, hb⟩ := (hf st).2 h1
              exact ⟨st', by simp [hfs, Res.bind], hb⟩
            · have hok := (hf st).1 h1
              have h2 : st.rem - w1.length < w2.length := by omega
              obtain ⟨st', hgs, hb⟩ := (hg ⟨st.out ++ w1, st.rem - w1.length⟩).2 h2
              refine ⟨st', by simp [hok, Res.bind, hgs], ?_⟩
              simp at hb
              omega

/-- The reserve-write-body-write idiom `bracketR`: reserving the brackets
up front shifts the threshold but emits `pre ++ w ++ post`. -/
theorem spec_bracket {body : GState → Res} {rb : Option (List Char)}
    (pre post : List Char) (hb : Spec body rb) :
    Spec (bracketR pre post body) (rb.map fun w => pre ++ w ++ post) := by
  intro st
  match rb with
  | none =>
      rcases Nat.lt_or_ge st.rem (pre.length + post.length) with h | h
      · exact ⟨st, by simp [bracketR, reduce_rem_len, h], le_rfl⟩
      · obtain ⟨st', hbs, hbnd⟩ :=
          hb ⟨st.out ++ pre, st.rem - (pre.length + post.length)⟩
        refine ⟨st', ?_, ?_⟩
        · simp [bracketR, reduce_rem_len, Nat.not_lt.mpr h, writeR, Res.bind, hbs]
        · simp at hbnd
          omega
  | some w =>
      refine ⟨fun h => ?_, fun h => ?_⟩
      · simp only [List.length_append] at h
        have h1 : pre.length + post.length ≤ st.rem := by omega
        have h2 : w.length ≤ st.rem - (pre.length + post.length) := by omega
        have hok := (hb ⟨st.out ++ pre, st.rem - (pre.length + post.length)⟩).1 h2
        simp only [bracketR, reduce_rem_len, Nat.not_lt.mpr h1, if_false, writeR,
          Res.bind, hok, Res.ok.injEq, GState.mk.injEq, List.length_append]
        exact ⟨by simp, by omega⟩
      · simp only [List.length_append] at h
        rcases Nat.lt_or_ge st.rem (pre.length + post.length) with h1 | h1
        · exact ⟨st, by simp [bracketR, reduce_rem_len, h1], le_rfl⟩
        · have h2 : st.rem - (pre.length + post.length) < w.length := by omega
          obtain ⟨st', hbs, hbnd⟩ :=
            (hb ⟨st.out ++ pre, st.rem - (pre.length + post.length)⟩).2 h2
          refine ⟨st', ?_, ?_⟩
          · simp [bracketR, reduce_rem_len, Nat.not_lt.mpr h1, writeR, Res.bind, hbs]
          · simp at hbnd
            omega

/-! ## Pure emission functions

For each generator, the byte string it emits on its input when capacity
suffices (`none` when the generator fails regardless of capacity). These
mirror the recursion of the generators exactly and are related to them by
`Spec` below. -/

/-- The bytes of the literal `null`. -/
def nullChars : List Char := ['n', 'u', 'l', 'l']

/-- Emission of `gen_boolean`. -/
def emit_boolean (v : PtrVal) : Option (List Char) :=
  match v with
  | .vnull => some nullChars
  | .vbool b =>
      some (if b then ['t', 'r', 'u', 'e'] else ['f', 'a', 'l', 's', 'e'])
  | _ => none

/-- Emission of `gen_hex`. -/
def emit_hex (v : PtrVal) : Option (List Char) :=
  match v with
  | .vnull => some nullChars
  | .vuns u => some (['"'] ++ utoaChars 16 u ++ ['"'])
  | _ => none

/-- Emission of `gen_integer`: the magnitude is the C unsigned negation
`-(unsigned)n` for negative values. -/
def emit_integer (v : PtrVal) : Option (List Char) :=
  match v with
  | .vnull => some nullChars
  | .vint i =>
      if i < 0 then
        some ('-' :: utoaChars 10 ((2 ^ 32 - (i % (2 ^ 32 : Int)).toNat) % 2 ^ 32))
      else some (utoaChars 10 (i % (2 ^ 32 : Int)).toNat)
  | _ => none

/-- Emission of `gen_uinteger`. -/
def emit_uinteger (v : PtrVal) : Option (List Char) :=
  match v with
  | .vnull => some nullChars
  | .vuns u => some (utoaChars 10 u)
  | _ => none

/-- Emission of `gen_value`: the raw bytes, verbatim. -/
def emit_value (v : PtrVal) : Option (List Char) :=
  match v with
  | .vstr s => some s
  | _ => none

/-- Emission of the `gen_string` copy loop. -/
def emit_string_loop (s : List Char) : List Char :=
  match h : findEsc s with
  | none => s
  | some i =>
      s.take i ++ (['\\', s.getD i ' '] ++
        (if (s.drop (i + 1)).isEmpty then [] else emit_string_loop (s.drop (i + 1))))
termination_by s.length
decreasing_by
  have := findEsc_lt_length h
  simp [List.length_drop]
  omega

/-- Emission of `gen_string`. -/
def emit_string (v : PtrVal) : Option (List Char) :=
  match v with
  | .vnull => some nullChars
  | .vstr s => some (['"'] ++ emit_string_loop s ++ ['"'])
  | _ => none

/-- Emission of `gen_carr_run`, given the emission of one element. -/
def emit_carr_run {α : Type} (e : α → Option (List Char)) :
    List α → Nat → Option (List Char)
  | _, 0 => some []
  | [], _ + 1 => none
  | a :: rest, c + 1 =>
      (e a).bind fun w =>
        if c = 0 then some w
        else (emit_carr_run e rest c).map fun w2 => w ++ (',' :: (' ' :: w2))

mutual
/-- Emission of `gen_funcall`. -/
def emit_funcall (t : JType) (v : PtrVal) : Option (List Char) :=
  match t with
  | .t_to_primitive => emit_primitive v
  | .t_to_array => emit_array v
  | .t_to_boolean => emit_boolean v
  | .t_to_hex => emit_hex v
  | .t_to_integer => emit_integer v
  | .t_to_null => some nullChars
  | .t_to_object => emit_object v
  | .t_to_string => emit_string v
  | .t_to_uinteger => emit_uinteger v
  | .t_to_value => emit_value v
termination_by 2 * sizeOf v + 1
decreasing_by all_goals simp_wf <;> omega

/-- Emission of `gen_array`. -/
def emit_array (v : PtrVal) : Option (List Char) :=
  match v with
  | .vnull => some nullChars
  | .vnodes ns => (emit_array_loop ns).map fun w => ['['] ++ w ++ [']']
  | _ => none
termination_by 2 * sizeOf v
decreasing_by all_goals simp_wf <;> omega

/-- Emission of the sibling loop of `gen_array`. -/
def emit_array_loop (ns : List Node) : Option (List Char) :=
  match ns with
  | [] => some []
  | .mk nm v cnt sty vty :: rest =>
      if v.isNull then some []
      else
        (if cnt.isSome then emit_c_array (.mk nm v cnt sty vty)
         else emit_funcall vty v).bind fun w1 =>
          (match rest with
           | [] => some []
           | m :: tl =>
               if m.value.isNull then some []
               else (some [',', ' ']).bind fun w2 =>
                 (emit_array_loop (m :: tl)).map fun w3 =>
                   w2 ++ w3).map fun w2 => w1 ++ w2
termination_by 2 * sizeOf ns
decreasing_by all_goals simp_wf <;> omega

/-- Emission of `gen_object`. -/
def emit_object (v : PtrVal) : Option (List Char) :=
  match v with
  | .vnull => some nullChars
  | .vnodes ns => (emit_object_loop ns).map fun w => ['{'] ++ w ++ ['}']
  | _ => none
termination_by 2 * sizeOf v
decreasing_by all_goals simp_wf <;> omega

/-- Emission of the field loop of `gen_object`. -/
def emit_object_loop (ns : List Node) : Option (List Char) :=
  match ns with
  | [] => some []
  | n :: rest =>
      match n.name with
      | none => some []
      | some nm =>
          (some ('"' :: (nm ++ ['"', ':', ' ']))).bind fun w1 =>
            ((emit_json n).bind fun w2 =>
              (emit_object_tail rest).map fun w3 =>
                w2 ++ w3).map fun w2 => w1 ++ w2
termination_by 2 * sizeOf ns
decreasing_by all_goals simp_wf <;> omega

/-- Emission of the separator-and-next-field step of the object loop. -/
def emit_object_tail (rest : List Node) : Option (List Char) :=
  match rest with
  | [] => some []
  | m :: tl =>
      match m.name with
      | some _ =>
          (some [',', ' ']).bind fun w3 =>
            (emit_object_loop (m :: tl)).map fun w4 => w3 ++ w4
      | none => some []
termination_by 2 * sizeOf rest + 1
decreasing_by all_goals simp_wf <;> omega

/-- Emission of `gen_c_array`. -/
def emit_c_array (n : Node) : Option (List Char) :=
  match n with
  | .mk _ v cnt _ vty =>
      (if cnt.getD 0 = 0 then some []
       else emit_c_body vty v (cnt.getD 0)).map fun w => ['['] ++ w ++ [']']
termination_by 2 * sizeOf n
decreasing_by all_goals simp_wf <;> omega

/-- Emission of the `switch (tjs->vtype)` of `gen_c_array`. -/
def emit_c_body (t : JType) (v : PtrVal) (cnt : Nat) : Option (List Char) :=
  match t with
  | .t_to_array =>
      match v with
      | .vnodeps l => emit_carr_nodeps true l cnt
      | _ => none
  | .t_to_object =>
      match v with
      | .vnodeps l => emit_carr_nodeps false l cnt
      | _ => none
  | .t_to_boolean =>
      match v with
      | .vbools l => emit_carr_run (fun b => emit_boolean (.vbool b)) l cnt
      | _ => none
  | .t_to_hex =>
      match v with
      | .vunss l => emit_carr_run (fun u => emit_hex (.vuns u)) l cnt
      | _ => none
  | .t_to_integer =>
      match v with
      | .vints l => emit_carr_run (fun i => emit_integer (.vint i)) l cnt
      | _ => none
  | .t_to_string =>
      match v with
      | .vstrs l => emit_carr_run (fun o => emit_string (optStrPtr o)) l cnt
      | _ => none
  | .t_to_uinteger =>
      match v with
      | .vunss l => emit_carr_run (fun u => emit_uinteger (.vuns u)) l cnt
      | _ => none
  | .t_to_value =>
      match v with
      | .vstrs l => emit_carr_run (fun o => emit_value (optStrPtr o)) l cnt
      | _ => none
  | .t_to_null => none
  | .t_to_primitive => none
termination_by 2 * sizeOf v + 1
decreasing_by all_goals simp_wf <;> omega

/-- Emission of the node-pointer run of `gen_c_array`. -/
def emit_carr_nodeps (isArr : Bool) (l : List (Option (List Node))) (cnt : Nat) :
    Option (List Char) :=
  match cnt, l with
  | 0, _ => some []
  | _ + 1, [] => none
  | c + 1, none :: rest =>
      (if isArr then emit_array .vnull else emit_object .vnull).bind fun w =>
        (emit_carr_sep isArr rest c).map fun w2 => w ++ w2
  | c + 1, some ns :: rest =>
      (if isArr then emit_array (.vnodes ns)
       else emit_object (.vnodes ns)).bind fun w =>
        (emit_carr_sep isArr rest c).map fun w2 => w ++ w2
termination_by 2 * sizeOf l
decreasing_by all_goals simp_wf <;> omega

/-- Emission of the separator step of the node-pointer run. -/
def emit_carr_sep (isArr : Bool) (rest : List (Option (List Node))) (c : Nat) :
    Option (List Char) :=
  if c = 0 then some []
  else (some [',', ' ']).bind fun w2 =>
    (emit_carr_nodeps isArr rest c).map fun w3 => w2 ++ w3
termination_by 2 * sizeOf rest + 1
decreasing_by all_goals simp_wf <;> omega

/-- Emission of `gen_json`. -/
def emit_json (n : Node) : Option (List Char) :=
  match n with
  | .mk nm v cnt sty vty =>
      if cnt.isSome then emit_c_array (.mk nm v cnt sty vty)
      else emit_funcall vty v
termination_by 2 * sizeOf n + 1
decreasing_by all_goals simp_wf <;> omega

/-- Emission of `gen_primitive`. -/
def emit_primitive (v : PtrVal) : Option (List Char) :=
  match v with
  | .vnode (.mk nm v' cnt sty vty) =>
      if cnt.isSome then emit_c_array (.mk nm v' cnt sty vty)
      else emit_funcall vty v'
  | _ => none
termination_by 2 * sizeOf v
decreasing_by all_goals simp_wf <;> omega
end

theorem spec_gen_null : Spec gen_null_st (some nullChars) :=
  spec_strcpy nullChars

theorem spec_utoa (n base : Nat) : Spec (utoa n base) (some (utoaChars base n)) :=
  spec_strcpy (utoaChars base n)

theorem spec_gen_boolean (v : PtrVal) : Spec (gen_boolean v) (emit_boolean v) := by
  cases v with
  | vnull => exact spec_gen_null
  | vbool b => cases b <;> exact spec_strcpy _
  | vuns u => exact spec_fail
  | vint i => exact spec_fail
  | vstr s => exact spec_fail
  | vnode n => exact spec_fail
  | vnodes ns => exact spec_fail
  | vbools l => exact spec_fail
  | vunss l => exact spec_fail
  | vints l => exact spec_fail
  | vstrs l => exact spec_fail
  | vnodeps l => exact spec_fail

theorem spec_gen_hex (v : PtrVal) : Spec (gen_hex v) (emit_hex v) := by
  cases v with
  | vnull => exact spec_gen_null
  | vuns u => exact spec_bracket ['"'] ['"'] (spec_utoa u 16)
  | vbool b => exact spec_fail
  | vint i => exact spec_fail
  | vstr s => exact spec_fail
  | vnode n => exact spec_fail
  | vnodes ns => exact spec_fail
  | vbools l => exact spec_fail
  | vunss l => exact spec_fail
  | vints l => exact spec_fail
  | vstrs l => exact spec_fail
  | vnodeps l => exact spec_fail

theorem spec_gen_integer (v : PtrVal) : Spec (gen_integer v) (emit_integer v) := by
  cases v with
  | vnull => exact spec_gen_null
  | vint i =>
      by_cases hi : i < 0
      · have h := spec_bracket ['-'] []
          (spec_utoa ((2 ^ 32 - (i % (2 ^ 32 : Int)).toNat) % 2 ^ 32) 10)
        have he : (Option.map (fun w => ['-'] ++ w ++ [])
            (some (utoaChars 10 ((2 ^ 32 - (i % (2 ^ 32 : Int)).toNat) % 2 ^ 32)))) =
            emit_integer (.vint i) := by
          simp [emit_integer, hi]
        rw [he] at h
        have hg : gen_integer (.vint i) = bracketR ['-'] []
            (utoa ((2 ^ 32 - (i % (2 ^ 32 : Int)).toNat) % 2 ^ 32) 10) := by
          funext st
          simp [gen_integer, hi]
        rw [hg]
        exact h
      · have h := spec_utoa (i % (2 ^ 32 : Int)).toNat 10
        have he : (some (utoaChars 10 (i % (2 ^ 32 : Int)).toNat)) =
            emit_integer (.vint i) := by
          simp [emit_integer, hi]
        rw [he] at h
        have hg : gen_integer (.vint i) = utoa (i % (2 ^ 32 : Int)).toNat 10 := by
          funext st
          simp [gen_integer, hi]
        rw [hg]
        exact h
  | vbool b => exact spec_fail
  | vuns u => exact spec_fail
  | vstr s => exact spec_fail
  | vnode n => exact spec_fail
  | vnodes ns => exact spec_fail
  | vbools l => exact spec_fail
  | vunss l => exact spec_fail
  | vints l => exact spec_fail
  | vstrs l => exact spec_fail
  | vnodeps l => exact spec_fail

theorem spec_gen_uinteger (v : PtrVal) : Spec (gen_uinteger v) (emit_uinteger v) := by
  cases v with
  | vnull => exact spec_gen_null
  | vuns u => exact spec_utoa u 10
  | vbool b => exact spec_fail
  | vint i => exact spec_fail
  | vstr s => exact spec_fail
  | vnode n => exact spec_fail
  | vnodes ns => exact spec_fail
  | vbools l => exact spec_fail
  | vunss l => exact spec_fail
  | vints l => exact spec_fail
  | vstrs l => exact spec_fail
  | vnodeps l => exact spec_fail

theorem spec_gen_value (v : PtrVal) : Spec (gen_value v) (emit_value v) := by
  cases v with
  | vstr s => exact spec_strcpy s
  | vnull => exact spec_fail
  | vbool b => exact spec_fail
  | vuns u => exact spec_fail
  | vint i => exact spec_fail
  | vnode n => exact spec_fail
  | vnodes ns => exact spec_fail
  | vbools l => exact spec_fail
  | vunss l => exact spec_fail
  | vints l => exact spec_fail
  | vstrs l => exact spec_fail
  | vnodeps l => exact spec_fail

theorem gen_string_loop_eq_none {s : List Char} (hfe : findEsc s = none) :
    gen_string_loop s = strcpy_val s := by
  funext st
  rw [gen_string_loop]
  split
  · rfl
  · rename_i i h
    rw [hfe] at h
    simp at h

theorem gen_string_loop_eq_some {s : List Char} {i : Nat}
    (hfe : findEsc s = some i) :
    gen_string_loop s = fun st =>
      Res.bind (strcpy_val (s.take i) st) fun st1 =>
        Res.bind (strcpy_val ['\\', s.getD i ' '] st1) fun st2 =>
          if (s.drop (i + 1)).isEmpty then .ok st2
          else gen_string_loop (s.drop (i + 1)) st2 := by
  funext st
  rw [gen_string_loop]
  split
  · rename_i h
    rw [hfe] at h
    simp at h
  · rename_i j h
    rw [hfe] at h
    injection h with h
    subst h
    rfl

theorem emit_string_loop_eq_none {s : List Char} (hfe : findEsc s = none) :
    emit_string_loop s = s := by
  rw [emit_string_loop]
  split
  · rfl
  · rename_i i h
    rw [hfe] at h
    simp at h

theorem emit_string_loop_eq_some {s : List Char} {i : Nat}
    (hfe : findEsc s = some i) :
    emit_string_loop s =
      s.take i ++ (['\\', s.getD i ' '] ++
        (if (s.drop (i + 1)).isEmpty then []
         else emit_string_loop (s.drop (i + 1)))) := by
  rw [emit_string_loop]
  split
  · rename_i h
    rw [hfe] at h
    simp at h
  · rename_i j h
    rw [hfe] at h
    injection h with h
    subst h
    rfl

theorem spec_gen_string_loop :
    ∀ (k : Nat) (s : List Char), s.length ≤ k →
      Spec (gen_string_loop s) (some (emit_string_loop s)) := by
  intro k
  induction k with
  | zero =>
      intro s hs
      have hnil : s = [] := List.length_eq_zero.mp (Nat.le_zero.mp hs)
      subst hnil
      rw [@gen_string_loop_eq_none [] rfl, @emit_string_loop_eq_none [] rfl]
      exact spec_strcpy []
  | succ k ih =>
      intro s hs
      cases hfe : findEsc s with
      | none =>
          rw [gen_string_loop_eq_none hfe, emit_string_loop_eq_none hfe]
          exact spec_strcpy s
      | some i =>
          have hil := findEsc_lt_length hfe
          rw [gen_string_loop_eq_some hfe, emit_string_loop_eq_some hfe]
          by_cases hemp : (s.drop (i + 1)).isEmpty
          · simp only [hemp, if_true]
            have h := spec_bind (spec_strcpy (s.take i))
              (spec_bind (spec_strcpy ['\\', s.getD i ' ']) spec_ok)
            simpa using h
          · simp only [hemp, if_false]
            have hrec : Spec (gen_string_loop (s.drop (i + 1)))
                (some (emit_string_loop (s.drop (i + 1)))) := by
              apply ih
              simp [List.length_drop]
              omega
            have h := spec_bind (spec_strcpy (s.take i))
              (spec_bind (spec_strcpy ['\\', s.getD i ' ']) hrec)
            simpa using h

theorem spec_gen_string (v : PtrVal) : Spec (gen_string v) (emit_string v) := by
  cases v with
  | vnull => exact spec_gen_null
  | vstr s =>
      exact spec_bracket ['"'] ['"'] (spec_gen_string_loop s.length s le_rfl)
  | vbool b => exact spec_fail
  | vuns u => exact spec_fail
  | vint i => exact spec_fail
  | vnode n => exact spec_fail
  | vnodes ns => exact spec_fail
  | vbools l => exact spec_fail
  | vunss l => exact spec_fail
  | vints l => exact spec_fail
  | vstrs l => exact spec_fail
  | vnodeps l => exact spec_fail

/-- `Spec` transfer for the generic scalar-run loop. -/
theorem spec_carr_run {α : Type} {f : PtrVal → GState → Res} {inj : α → PtrVal}
    {e : α → Option (List Char)} (hfe : ∀ a, Spec (f (inj a)) (e a)) :
    ∀ (l : List α) (cnt : Nat),
      Spec (gen_carr_run f inj l cnt) (emit_carr_run e l cnt) := by
  intro l
  induction l with
  | nil =>
      intro cnt
      cases cnt with
      | zero => exact spec_ok
      | succ c => exact spec_fail
  | cons a rest ih =>
      intro cnt
      cases cnt with
      | zero => exact spec_ok
      | succ c =>
          by_cases hc : c = 0
          · subst hc
            have h := spec_bind (hfe a) spec_ok
            have he : ((e a).bind fun w1 => (some []).map fun w2 => w1 ++ w2) =
                emit_carr_run e (a :: rest) (0 + 1) := by
              cases hea : e a with
              | none => simp [emit_carr_run, hea]
              | some w => simp [emit_carr_run, hea]
            rw [he] at h
            exact h
          · have h := spec_bind (hfe a)
              (spec_bind (spec_strcpy [',', ' ']) (ih c))
            have he : ((e a).bind fun w1 =>
                (((some [',', ' ']).bind fun w2 =>
                  (emit_carr_run e rest c).map fun w3 => w2 ++ w3).map
                    fun w2 => w1 ++ w2)) = emit_carr_run e (a :: rest) (c + 1) := by
              cases hea : e a with
              | none => simp [emit_carr_run, hea]
              | some w =>
                  cases her : emit_carr_run e rest c with
                  | none => simp [emit_carr_run, hea, her, hc]
                  | some w2 => simp [emit_carr_run, hea, her, hc]
            rw [he] at h
            have hfun : (fun st => Res.bind (f (inj a) st) fun st1 =>
                Res.bind (strcpy_val [',', ' '] st1) fun st2 =>
                  gen_carr_run f inj rest c st2) =
                gen_carr_run f inj (a :: rest) (c + 1) := by
              funext st
              show _ = Res.bind (f (inj a) st) fun st1 =>
                if c = 0 then .ok st1
                else Res.bind (strcpy_val [',', ' '] st1) fun st2 =>
                  gen_carr_run f inj rest c st2
              simp [hc]
            rw [hfun] at h
            exact h

set_option maxHeartbeats 4000000 in
/-- Every generator meets its emission: on any input it either always
fails, or emits its fixed byte string exactly when that many bytes of
capacity remain; failures never break the written-bytes-plus-capacity
budget. Proved for all inputs of combined size at most `k`. -/
theorem spec_master : ∀ k : Nat,
    (∀ t v, 2 * sizeOf v + 1 ≤ k → Spec (gen_funcall t v) (emit_funcall t v)) ∧
    (∀ v, 2 * sizeOf v ≤ k → Spec (gen_array v) (emit_array v)) ∧
    (∀ ns, 2 * sizeOf ns ≤ k → Spec (gen_array_loop ns) (emit_array_loop ns)) ∧
    (∀ v, 2 * sizeOf v ≤ k → Spec (gen_object v) (emit_object v)) ∧
    (∀ ns, 2 * sizeOf ns ≤ k →
      Spec (gen_object_loop ns) (emit_object_loop ns)) ∧
    (∀ n, 2 * sizeOf n ≤ k → Spec (gen_c_array n) (emit_c_array n)) ∧
    (∀ t v cnt, 2 * sizeOf v + 1 ≤ k →
      Spec (gen_c_body t v cnt) (emit_c_body t v cnt)) ∧
    (∀ isArr l cnt, 2 * sizeOf l ≤ k →
      Spec (gen_carr_nodeps isArr l cnt) (emit_carr_nodeps isArr l cnt)) ∧
    (∀ isArr rest c, 2 * sizeOf rest + 1 ≤ k →
      Spec (gen_carr_sep isArr rest c) (emit_carr_sep isArr rest c)) ∧
    (∀ n, 2 * sizeOf n + 1 ≤ k → Spec (gen_json n) (emit_json n)) ∧
    (∀ v, 2 * sizeOf v ≤ k → Spec (gen_primitive v) (emit_primitive v)) := by
  intro k
  induction k using Nat.strong_induction_on with
  | _ k ih =>
    have ihF := fun m (hm : m < k) => (ih m hm).1
    have ihA := fun m (hm : m < k) => (ih m hm).2.1
    have ihAL := fun m (hm : m < k) => (ih m hm).2.2.1
    have ihO := fun m (hm : m < k) => (ih m hm).2.2.2.1
    have ihOL := fun m (hm : m < k) => (ih m hm).2.2.2.2.1
    have ihCA := fun m (hm : m < k) => (ih m hm).2.2.2.2.2.1
    have ihCB := fun m (hm : m < k) => (ih m hm).2.2.2.2.2.2.1
    have ihCN := fun m (hm : m < k) => (ih m hm).2.2.2.2.2.2.2.1
    have ihCS := fun m (hm : m < k) => (ih m hm).2.2.2.2.2.2.2.2.1
    have ihJ := fun m (hm : m < k) => (ih m hm).2.2.2.2.2.2.2.2.2.1
    have ihP := fun m (hm : m < k) => (ih m hm).2.2.2.2.2.2.2.2.2.2
    refine ⟨?_, ?_, ?_, ?_, ?_, ?_, ?_, ?_, ?_, ?_, ?_⟩
    -- gen_funcall
    · intro t v hk
      have hv : 2 * sizeOf v < k := by omega
      cases t with
      | t_to_primitive =>
          intro st
          rw [gen_funcall.eq_def, emit_funcall.eq_def]
          exact ihP _ hv v le_rfl st
      | t_to_array =>
          intro st
          rw [gen_funcall.eq_def, emit_funcall.eq_def]
          exact ihA _ hv v le_rfl st
      | t_to_boolean =>
          intro st
          rw [gen_funcall.eq_def, emit_funcall.eq_def]
          exact spec_gen_boolean v st
      | t_to_hex =>
          intro st
          rw [gen_funcall.eq_def, emit_funcall.eq_def]
          exact spec_gen_hex v st
      | t_to_integer =>
          intro st
          rw [gen_funcall.eq_def, emit_funcall.eq_def]
          exact spec_gen_integer v st
      | t_to_null =>
          intro st
          rw [gen_funcall.eq_def, emit_funcall.eq_def]
          exact spec_gen_null st
      | t_to_object =>
          intro st
          rw [gen_funcall.eq_def, emit_funcall.eq_def]
          exact ihO _ hv v le_rfl st
      | t_to_string =>
          intro st
          rw [gen_funcall.eq_def, emit_funcall.eq_def]
          exact spec_gen_string v st
      | t_to_uinteger =>
          intro st
          rw [gen_funcall.eq_def, emit_funcall.eq_def]
          exact spec_gen_uinteger v st
      | t_to_value =>
          intro st
          rw [gen_funcall.eq_def, emit_funcall.eq_def]
          exact spec_gen_value v st
    -- gen_array
    · intro v hk
      cases v with
      | vnull =>
          intro st
          rw [gen_array.eq_def, emit_array.eq_def]
          exact spec_gen_null st
      | vnodes ns =>
          have hm : 2 * sizeOf ns < k := by simp at hk; omega
          intro st
          rw [gen_array.eq_def, emit_array.eq_def]
          exact spec_bracket ['['] [']'] (ihAL _ hm ns le_rfl) st
      | vbool b =>
          intro st
          rw [gen_array.eq_def, emit_array.eq_def]
          exact spec_fail st
      | vuns u =>
          intro st
          rw [gen_array.eq_def, emit_array.eq_def]
          exact spec_fail st
      | vint i =>
          intro st
          rw [gen_array.eq_def, emit_array.eq_def]
          exact spec_fail st
      | vstr s =>
          intro st
          rw [gen_array.eq_def, emit_array.eq_def]
          exact spec_fail st
      | vnode n =>
          intro st
          rw [gen_array.eq_def, emit_array.eq_def]
          exact spec_fail st
      | vbools l =>
          intro st
          rw [gen_array.eq_def, emit_array.eq_def]
          exact spec_fail st
      | vunss l =>
          intro st
          rw [gen_array.eq_def, emit_array.eq_def]
          exact spec_fail st
      | vints l =>
          intro st
          rw [gen_array.eq_def, emit_array.eq_def]
          exact spec_fail st
      | vstrs l =>
          intro st
          rw [gen_array.eq_def, emit_array.eq_def]
          exact spec_fail st
      | vnodeps l =>
          intro st
          rw [gen_array.eq_def, emit_array.eq_def]
          exact spec_fail st
    -- gen_array_loop
    · intro ns hk
      cases ns with
      | nil =>
          intro st
          rw [gen_array_loop.eq_def, emit_array_loop.eq_def]
          exact spec_ok st
      | cons hd rest =>
          rcases hd with ⟨nm, v, cnt, sty, vty⟩
          cases hv : PtrVal.isNull v with
          | true =>
              intro st
              rw [gen_array_loop.eq_def, emit_array_loop.eq_def]
              simp only [hv]
              exact spec_ok st
          | false =>
              have hinner : Spec
                  (fun st => if cnt.isSome then
                      gen_c_array (.mk nm v cnt sty vty) st
                    else gen_funcall vty v st)
                  (if cnt.isSome then emit_c_array (.mk nm v cnt sty vty)
                   else emit_funcall vty v) := by
                cases cnt with
                | some c =>
                    have hca : 2 * sizeOf (Node.mk nm v (some c) sty vty) < k := by
                      simp at hk ⊢
                      omega
                    exact ihCA _ hca (Node.mk nm v (some c) sty vty) le_rfl
                | none =>
                    have hf : 2 * sizeOf v + 1 < k := by
                      simp at hk ⊢
                      omega
                    exact ihF _ hf vty v le_rfl
              cases rest with
              | nil =>
                  intro st
                  rw [gen_array_loop.eq_def, emit_array_loop.eq_def]
                  simp only [hv]
                  exact spec_bind hinner spec_ok st
              | cons m tl =>
                  cases hm2 : PtrVal.isNull m.value with
                  | true =>
                      intro st
                      rw [gen_array_loop.eq_def, emit_array_loop.eq_def]
                      simp only [hv, hm2]
                      exact spec_bind hinner spec_ok st
                  | false =>
                      have hrec : 2 * sizeOf (m :: tl) < k := by
                        simp at hk ⊢
                        omega
                      intro st
                      rw [gen_array_loop.eq_def, emit_array_loop.eq_def]
                      simp only [hv, hm2]
                      exact spec_bind hinner
                        (spec_bind (spec_strcpy [',', ' '])
                          (ihAL _ hrec (m :: tl) le_rfl)) st
    -- gen_object
    · intro v hk
      cases v with
      | vnull =>
          intro st
          rw [gen_object.eq_def, emit_object.eq_def]
          exact spec_gen_null st
      | vnodes ns =>
          have hm : 2 * sizeOf ns < k := by simp at hk; omega
          intro st
          rw [gen_object.eq_def, emit_object.eq_def]
          exact spec_bracket ['{'] ['}'] (ihOL _ hm ns le_rfl) st
      | vbool b =>
          intro st
          rw [gen_object.eq_def, emit_object.eq_def]
          exact spec_fail st
      | vuns u =>
          intro st
          rw [gen_object.eq_def, emit_object.eq_def]
          exact spec_fail st
      | vint i =>
          intro st
          rw [gen_object.eq_def, emit_object.eq_def]
          exact spec_fail st
      | vstr s =>
          intro st
          rw [gen_object.eq_def, emit_object.eq_def]
          exact spec_fail st
      | vnode n =>
          intro st
          rw [gen_object.eq_def, emit_object.eq_def]
          exact spec_fail st
      | vbools l =>
          intro st
          rw [gen_object.eq_def, emit_object.eq_def]
          exact spec_fail st
      | vunss l =>
          intro st
          rw [gen_object.eq_def, emit_object.eq_def]
          exact spec_fail st
      | vints l =>
          intro st
          rw [gen_object.eq_def, emit_object.eq_def]
          exact spec_fail st
      | vstrs l =>
          intro st
          rw [gen_object.eq_def, emit_object.eq_def]
          exact spec_fail st
      | vnodeps l =>
          intro st
          rw [gen_object.eq_def, emit_object.eq_def]
          exact spec_fail st
    -- gen_object_loop
    · intro ns hk
      cases ns with
      | nil =>
          intro st
          rw [gen_object_loop.eq_def, emit_object_loop.eq_def]
          exact spec_ok st
      | cons n rest =>
          cases hname : n.name with
          | none =>
              intro st
              rw [gen_object_loop.eq_def, emit_object_loop.eq_def]
              simp only [hname]
              exact spec_ok st
          | some nm =>
              have hj : 2 * sizeOf n + 1 < k := by simp at hk ⊢; omega
              have hjj := ihJ _ hj n le_rfl
              cases rest with
              | nil =>
                  intro st
                  rw [gen_object_loop.eq_def, emit_object_loop.eq_def]
                  simp only [hname]
                  rw [emit_object_tail.eq_def]
                  exact spec_bind (spec_strcpy ('"' :: (nm ++ ['"', ':', ' '])))
                    (spec_bind hjj spec_ok) st
              | cons m tl =>
                  cases hm2 : m.name with
                  | none =>
                      intro st
                      rw [gen_object_loop.eq_def, emit_object_loop.eq_def]
                      simp only [hname]
                      rw [emit_object_tail.eq_def]
                      simp only [hm2]
                      exact spec_bind (spec_strcpy ('"' :: (nm ++ ['"', ':', ' '])))
                        (spec_bind hjj spec_ok) st
                  | some nm2 =>
                      have hrec : 2 * sizeOf (m :: tl) < k := by
                        simp at hk ⊢
                        omega
                      intro st
                      rw [gen_object_loop.eq_def, emit_object_loop.eq_def]
                      simp only [hname]
                      rw [emit_object_tail.eq_def]
                      simp only [hm2]
                      exact spec_bind (spec_strcpy ('"' :: (nm ++ ['"', ':', ' '])))
                        (spec_bind hjj
                          (spec_bind (spec_strcpy [',', ' '])
                            (ihOL _ hrec (m :: tl) le_rfl))) st
    -- gen_c_array
    · intro n hk
      rcases n with ⟨nm, v, cnt, sty, vty⟩
      cases cnt with
      | none =>
          intro st
          rw [gen_c_array.eq_def, emit_c_array.eq_def]
          exact spec_bracket ['['] [']'] spec_ok st
      | some c =>
          cases c with
          | zero =>
              intro st
              rw [gen_c_array.eq_def, emit_c_array.eq_def]
              exact spec_bracket ['['] [']'] spec_ok st
          | succ c' =>
              have hcb : 2 * sizeOf v + 1 < k := by simp at hk ⊢; omega
              intro st
              rw [gen_c_array.eq_def, emit_c_array.eq_def]
              exact spec_bracket ['['] [']'] (ihCB _ hcb vty v (c' + 1) le_rfl) st
    -- gen_c_body
    · intro t v cnt hk
      cases t with
      | t_to_primitive =>
          intro st
          rw [gen_c_body.eq_def, emit_c_body.eq_def]
          exact spec_fail st
      | t_to_array =>
          cases v with
          | vnodeps l =>
            have hb : 2 * sizeOf l < k := by simp at hk; omega
            intro st
            rw [gen_c_body.eq_def, emit_c_body.eq_def]
            exact ihCN _ hb true l cnt le_rfl st
          | vnull =>
              intro st
              rw [gen_c_body.eq_def, emit_c_body.eq_def]
              exact spec_fail st
          | vbool b =>
              intro st
              rw [gen_c_body.eq_def, emit_c_body.eq_def]
              exact spec_fail st
          | vuns u =>
              intro st
              rw [gen_c_body.eq_def, emit_c_body.eq_def]
              exact spec_fail st
          | vint i =>
              intro st
              rw [gen_c_body.eq_def, emit_c_body.eq_def]
              exact spec_fail st
          | vstr s =>
              intro st
              rw [gen_c_body.eq_def, emit_c_body.eq_def]
              exact spec_fail st
          | vnode n =>
              intro st
              rw [gen_c_body.eq_def, emit_c_body.eq_def]
              exact spec_fail st
          | vnodes ns =>
              intro st
              rw [gen_c_body.eq_def, emit_c_body.eq_def]
              exact spec_fail st
          | vbools l =>
              intro st
              rw [gen_c_body.eq_def, emit_c_body.eq_def]
              exact spec_fail st
          | vunss l =>
              intro st
              rw [gen_c_body.eq_def, emit_c_body.eq_def]
              exact spec_fail st
          | vints l =>
              intro st
              rw [gen_c_body.eq_def, emit_c_body.eq_def]
              exact spec_fail st
          | vstrs l =>
              intro st
              rw [gen_c_body.eq_def, emit_c_body.eq_def]
              exact spec_fail st
      | t_to_boolean =>
          cases v with
          | vbools l =>
            intro st
            rw [gen_c_body.eq_def, emit_c_body.eq_def]
            exact spec_carr_run (fun b => spec_gen_boolean (PtrVal.vbool b)) l cnt st
          | vnull =>
              intro st
              rw [gen_c_body.eq_def, emit_c_body.eq_def]
              exact spec_fail st
          | vbool b =>
              intro st
              rw [gen_c_body.eq_def, emit_c_body.eq_def]
              exact spec_fail st
          | vuns u =>
              intro st
              rw [gen_c_body.eq_def, emit_c_body.eq_def]
              exact spec_fail st
          | vint i =>
              intro st
              rw [gen_c_body.eq_def, emit_c_body.eq_def]
              exact spec_fail st
          | vstr s =>
              intro st
              rw [gen_c_body.eq_def, emit_c_body.eq_def]
              exact spec_fail st
          | vnode n =>
              intro st
              rw [gen_c_body.eq_def, emit_c_body.eq_def]
              exact spec_fail st
          | vnodes ns =>
              intro st
              rw [gen_c_body.eq_def, emit_c_body.eq_def]
              exact spec_fail st
          | vunss l =>
              intro st
              rw [gen_c_body.eq_def, emit_c_body.eq_def]
              exact spec_fail st
          | vints l =>
              intro st
              rw [gen_c_body.eq_def, emit_c_body.eq_def]
              exact spec_fail st
          | vstrs l =>
              intro st
              rw [gen_c_body.eq_def, emit_c_body.eq_def]
              exact spec_fail st
          | vnodeps l =>
              intro st
              rw [gen_c_body.eq_def, emit_c_body.eq_def]
              exact spec_fail st
      | t_to_hex =>
          cases v with
          | vunss l =>
            intro st
            rw [gen_c_body.eq_def, emit_c_body.eq_def]
            exact spec_carr_run (fun u => spec_gen_hex (PtrVal.vuns u)) l cnt st
          | vnull =>
              intro st
              rw [gen_c_body.eq_def, emit_c_body.eq_def]
              exact spec_fail st
          | vbool b =>
              intro st
              rw [gen_c_body.eq_def, emit_c_body.eq_def]
              exact spec_fail st
          | vuns u =>
              intro st
              rw [gen_c_body.eq_def, emit_c_body.eq_def]
              exact spec_fail st
          | vint i =>
              intro st
              rw [gen_c_body.eq_def, emit_c_body.eq_def]
              exact spec_fail st
          | vstr s =>
              intro st
              rw [gen_c_body.eq_def, emit_c_body.eq_def]
              exact spec_fail st
          | vnode n =>
              intro st
              rw [gen_c_body.eq_def, emit_c_body.eq_def]
              exact spec_fail st
          | vnodes ns =>
              intro st
              rw [gen_c_body.eq_def, emit_c_body.eq_def]
              exact spec_fail st
          | vbools l =>
              intro st
              rw [gen_c_body.eq_def, emit_c_body.eq_def]
              exact spec_fail st
          | vints l =>
              intro st
              rw [gen_c_body.eq_def, emit_c_body.eq_def]
              exact spec_fail st
          | vstrs l =>
              intro st
              rw [gen_c_body.eq_def, emit_c_body.eq_def]
              exact spec_fail st
          | vnodeps l =>
              intro st
              rw [gen_c_body.eq_def, emit_c_body.eq_def]
              exact spec_fail st
      | t_to_integer =>
          cases v with
          | vints l =>
            intro st
            rw [gen_c_body.eq_def, emit_c_body.eq_def]
            exact spec_carr_run (fun i => spec_gen_integer (PtrVal.vint i)) l cnt st
          | vnull =>
              intro st
              rw [gen_c_body.eq_def, emit_c_body.eq_def]
              exact spec_fail st
          | vbool b =>
              intro st
              rw [gen_c_body.eq_def, emit_c_body.eq_def]
              exact spec_fail st
          | vuns u =>
              intro st
              rw [gen_c_body.eq_def, emit_c_body.eq_def]
              exact spec_fail st
          | vint i =>
              intro st
              rw [gen_c_body.eq_def, emit_c_body.eq_def]
              exact spec_fail st
          | vstr s =>
              intro st
              rw [gen_c_body.eq_def, emit_c_body.eq_def]
              exact spec_fail st
          | vnode n =>
              intro st
              rw [gen_c_body.eq_def, emit_c_body.eq_def]
              exact spec_fail st
          | vnodes ns =>
              intro st
              rw [gen_c_body.eq_def, emit_c_body.eq_def]
              exact spec_fail st
          | vbools l =>
              intro st
              rw [gen_c_body.eq_def, emit_c_body.eq_def]
              exact spec_fail st
          | vunss l =>
              intro st
              rw [gen_c_body.eq_def, emit_c_body.eq_def]
              exact spec_fail st
          | vstrs l =>
              intro st
              rw [gen_c_body.eq_def, emit_c_body.eq_def]
              exact spec_fail st
          | vnodeps l =>
              intro st
              rw [gen_c_body.eq_def, emit_c_body.eq_def]
              exact spec_fail st
      | t_to_null =>
          intro st
          rw [gen_c_body.eq_def, emit_c_body.eq_def]
          exact spec_fail st
      | t_to_object =>
          cases v with
          | vnodeps l =>
            have hb : 2 * sizeOf l < k := by simp at hk; omega
            intro st
            rw [gen_c_body.eq_def, emit_c_body.eq_def]
            exact ihCN _ hb false l cnt le_rfl st
          | vnull =>
              intro st
              rw [gen_c_body.eq_def, emit_c_body.eq_def]
              exact spec_fail st
          | vbool b =>
              intro st
              rw [gen_c_body.eq_def, emit_c_body.eq_def]
              exact spec_fail st
          | vuns u =>
              intro st
              rw [gen_c_body.eq_def, emit_c_body.eq_def]
              exact spec_fail st
          | vint i =>
              intro st
              rw [gen_c_body.eq_def, emit_c_body.eq_def]
              exact spec_fail st
          | vstr s =>
              intro st
              rw [gen_c_body.eq_def, emit_c_body.eq_def]
              exact spec_fail st
          | vnode n =>
              intro st
              rw [gen_c_body.eq_def, emit_c_body.eq_def]
              exact spec_fail st
          | vnodes ns =>
              intro st
              rw [gen_c_body.eq_def, emit_c_body.eq_def]
              exact spec_fail st
          | vbools l =>
              intro st
              rw [gen_c_body.eq_def, emit_c_body.eq_def]
              exact spec_fail st
          | vunss l =>
              intro st
              rw [gen_c_body.eq_def, emit_c_body.eq_def]
              exact spec_fail st
          | vints l =>
              intro st
              rw [gen_c_body.eq_def, emit_c_body.eq_def]
              exact spec_fail st
          | vstrs l =>
              intro st
              rw [gen_c_body.eq_def, emit_c_body.eq_def]
              exact spec_fail st
      | t_to_string =>
          cases v with
          | vstrs l =>
            intro st
            rw [gen_c_body.eq_def, emit_c_body.eq_def]
            exact spec_carr_run (fun o => spec_gen_string (optStrPtr o)) l cnt st
          | vnull =>
              intro st
              rw [gen_c_body.eq_def, emit_c_body.eq_def]
              exact spec_fail st
          | vbool b =>
              intro st
              rw [gen_c_body.eq_def, emit_c_body.eq_def]
              exact spec_fail st
          | vuns u =>
              intro st
              rw [gen_c_body.eq_def, emit_c_body.eq_def]
              exact spec_fail st
          | vint i =>
              intro st
              rw [gen_c_body.eq_def, emit_c_body.eq_def]
              exact spec_fail st
          | vstr s =>
              intro st
              rw [gen_c_body.eq_def, emit_c_body.eq_def]
              exact spec_fail st
          | vnode n =>
              intro st
              rw [gen_c_body.eq_def, emit_c_body.eq_def]
              exact spec_fail st
          | vnodes ns =>
              intro st
              rw [gen_c_body.eq_def, emit_c_body.eq_def]
              exact spec_fail st
          | vbools l =>
              intro st
              rw [gen_c_body.eq_def, emit_c_body.eq_def]
              exact spec_fail st
          | vunss l =>
              intro st
              rw [gen_c_body.eq_def, emit_c_body.eq_def]
              exact spec_fail st
          | vints l =>
              intro st
              rw [gen_c_body.eq_def, emit_c_body.eq_def]
              exact spec_fail st
          | vnodeps l =>
              intro st
              rw [gen_c_body.eq_def, emit_c_body.eq_def]
              exact spec_fail st
      | t_to_uinteger =>
          cases v with
          | vunss l =>
            intro st
            rw [gen_c_body.eq_def, emit_c_body.eq_def]
            exact spec_carr_run (fun u => spec_gen_uinteger (PtrVal.vuns u)) l cnt st
          | vnull =>
              intro st
              rw [gen_c_body.eq_def, emit_c_body.eq_def]
              exact spec_fail st
          | vbool b =>
              intro st
              rw [gen_c_body.eq_def, emit_c_body.eq_def]
              exact spec_fail st
          | vuns u =>
              intro st
              rw [gen_c_body.eq_def, emit_c_body.eq_def]
              exact spec_fail st
          | vint i =>
              intro st
              rw [gen_c_body.eq_def, emit_c_body.eq_def]
              exact spec_fail st
          | vstr s =>
              intro st
              rw [gen_c_body.eq_def, emit_c_body.eq_def]
              exact spec_fail st
          | vnode n =>
              intro st
              rw [gen_c_body.eq_def, emit_c_body.eq_def]
              exact spec_fail st
          | vnodes ns =>
              intro st
              rw [gen_c_body.eq_def, emit_c_body.eq_def]
              exact spec_fail st
          | vbools l =>
              intro st
              rw [gen_c_body.eq_def, emit_c_body.eq_def]
              exact spec_fail st
          | vints l =>
              intro st
              rw [gen_c_body.eq_def, emit_c_body.eq_def]
              exact spec_fail st
          | vstrs l =>
              intro st
              rw [gen_c_body.eq_def, emit_c_body.eq_def]
              exact spec_fail st
          | vnodeps l =>
              intro st
              rw [gen_c_body.eq_def, emit_c_body.eq_def]
              exact spec_fail st
      | t_to_value =>
          cases v with
          | vstrs l =>
            intro st
            rw [gen_c_body.eq_def, emit_c_body.eq_def]
            exact spec_carr_run (fun o => spec_gen_value (optStrPtr o)) l cnt st
          | vnull =>
              intro st
              rw [gen_c_body.eq_def, emit_c_body.eq_def]
              exact spec_fail st
          | vbool b =>
              intro st
              rw [gen_c_body.eq_def, emit_c_body.eq_def]
              exact spec_fail st
          | vuns u =>
              intro st
              rw [gen_c_body.eq_def, emit_c_body.eq_def]
              exact spec_fail st
          | vint i =>
              intro st
              rw [gen_c_body.eq_def, emit_c_body.eq_def]
              exact spec_fail st
          | vstr s =>
              intro st
              rw [gen_c_body.eq_def, emit_c_body.eq_def]
              exact spec_fail st
          | vnode n =>
              intro st
              rw [gen_c_body.eq_def, emit_c_body.eq_def]
              exact spec_fail st
          | vnodes ns =>
              intro st
              rw [gen_c_body.eq_def, emit_c_body.eq_def]
              exact spec_fail st
          | vbools l =>
              intro st
              rw [gen_c_body.eq_def, emit_c_body.eq_def]
              exact spec_fail st
          | vunss l =>
              intro st
              rw [gen_c_body.eq_def, emit_c_body.eq_def]
              exact spec_fail st
          | vints l =>
              intro st
              rw [gen_c_body.eq_def, emit_c_body.eq_def]
              exact spec_fail st
          | vnodeps l =>
              intro st
              rw [gen_c_body.eq_def, emit_c_body.eq_def]
              exact spec_fail st
    -- gen_carr_nodeps
    · intro isArr l cnt hk
      cases cnt with
      | zero =>
          intro st
          rw [gen_carr_nodeps.eq_def, emit_carr_nodeps.eq_def]
          exact spec_ok st
      | succ c =>
          cases l with
          | nil =>
              intro st
              rw [gen_carr_nodeps.eq_def, emit_carr_nodeps.eq_def]
              exact spec_fail st
          | cons o rest =>
              have hsep : 2 * sizeOf rest + 1 < k := by
                cases o <;> simp at hk <;> omega
              have hcs := ihCS _ hsep isArr rest c le_rfl
              cases o with
              | none =>
                  have ha : 2 * sizeOf (PtrVal.vnull : PtrVal) < k := by
                    simp at hk ⊢
                    omega
                  cases isArr with
                  | true =>
                      intro st
                      rw [gen_carr_nodeps.eq_def, emit_carr_nodeps.eq_def]
                      exact spec_bind (ihA _ ha .vnull le_rfl) hcs st
                  | false =>
                      intro st
                      rw [gen_carr_nodeps.eq_def, emit_carr_nodeps.eq_def]
                      exact spec_bind (ihO _ ha .vnull le_rfl) hcs st
              | some ns =>
                  have ha : 2 * sizeOf (PtrVal.vnodes ns) < k := by
                    simp at hk ⊢
                    omega
                  cases isArr with
                  | true =>
                      intro st
                      rw [gen_carr_nodeps.eq_def, emit_carr_nodeps.eq_def]
                      exact spec_bind (ihA _ ha (.vnodes ns) le_rfl) hcs st
                  | false =>
                      intro st
                      rw [gen_carr_nodeps.eq_def, emit_carr_nodeps.eq_def]
                      exact spec_bind (ihO _ ha (.vnodes ns) le_rfl) hcs st
    -- gen_carr_sep
    · intro isArr rest c hk
      cases c with
      | zero =>
          intro st
          rw [gen_carr_sep.eq_def, emit_carr_sep.eq_def]
          exact spec_ok st
      | succ c' =>
          have hcn : 2 * sizeOf rest < k := by omega
          intro st
          rw [gen_carr_sep.eq_def, emit_carr_sep.eq_def]
          exact spec_bind (spec_strcpy [',', ' '])
            (ihCN _ hcn isArr rest (c' + 1) le_rfl) st
    -- gen_json
    · intro n hk
      rcases n with ⟨nm, v, cnt, sty, vty⟩
      cases cnt with
      | some c =>
          have hca : 2 * sizeOf (Node.mk nm v (some c) sty vty) < k := by omega
          intro st
          rw [gen_json.eq_def, emit_json.eq_def]
          exact ihCA _ hca (Node.mk nm v (some c) sty vty) le_rfl st
      | none =>
          have hf : 2 * sizeOf v + 1 < k := by simp at hk ⊢; omega
          intro st
          rw [gen_json.eq_def, emit_json.eq_def]
          exact ihF _ hf vty v le_rfl st
    -- gen_primitive
    · intro v hk
      cases v with
      | vnode n =>
          rcases n with ⟨nm, v2, cnt, sty, vty⟩
          cases cnt with
          | some c =>
              have hca : 2 * sizeOf (Node.mk nm v2 (some c) sty vty) < k := by
                simp at hk ⊢
                omega
              intro st
              rw [gen_primitive.eq_def, emit_primitive.eq_def]
              exact ihCA _ hca (Node.mk nm v2 (some c) sty vty) le_rfl st
          | none =>
              have hf : 2 * sizeOf v2 + 1 < k := by simp at hk ⊢; omega
              intro st
              rw [gen_primitive.eq_def, emit_primitive.eq_def]
              exact ihF _ hf vty v2 le_rfl st
      | vnull =>
          intro st
          rw [gen_primitive.eq_def, emit_primitive.eq_def]
          exact spec_fail st
      | vbool b =>
          intro st
          rw [gen_primitive.eq_def, emit_primitive.eq_def]
          exact spec_fail st
      | vuns u =>
          intro st
          rw [gen_primitive.eq_def, emit_primitive.eq_def]
          exact spec_fail st
      | vint i =>
          intro st
          rw [gen_primitive.eq_def, emit_primitive.eq_def]
          exact spec_fail st
      | vstr s =>
          intro st
          rw [gen_primitive.eq_def, emit_primitive.eq_def]
          exact spec_fail st
      | vnodes ns =>
          intro st
          rw [gen_primitive.eq_def, emit_primitive.eq_def]
          exact spec_fail st
      | vbools l =>
          intro st
          rw [gen_primitive.eq_def, emit_primitive.eq_def]
          exact spec_fail st
      | vunss l =>
          intro st
          rw [gen_primitive.eq_def, emit_primitive.eq_def]
          exact spec_fail st
      | vints l =>
          intro st
          rw [gen_primitive.eq_def, emit_primitive.eq_def]
          exact spec_fail st
      | vstrs l =>
          intro st
          rw [gen_primitive.eq_def, emit_primitive.eq_def]
          exact spec_fail st
      | vnodeps l =>
          intro st
          rw [gen_primitive.eq_def, emit_primitive.eq_def]
          exact spec_fail st

theorem spec_gen_funcall (t : JType) (v : PtrVal) :
    Spec (gen_funcall t v) (emit_funcall t v) :=
  (spec_master (2 * sizeOf v + 1)).1 t v le_rfl

theorem spec_gen_array (v : PtrVal) : Spec (gen_array v) (emit_array v) :=
  (spec_master (2 * sizeOf v)).2.1 v le_rfl

theorem spec_gen_array_loop (ns : List Node) :
    Spec (gen_array_loop ns) (emit_array_loop ns) :=
  (spec_master (2 * sizeOf ns)).2.2.1 ns le_rfl

theorem spec_gen_object (v : PtrVal) : Spec (gen_object v) (emit_object v) :=
  (spec_master (2 * sizeOf v)).2.2.2.1 v le_rfl

theorem spec_gen_object_loop (ns : List Node) :
    Spec (gen_object_loop ns) (emit_object_loop ns) :=
  (spec_master (2 * sizeOf ns)).2.2.2.2.1 ns le_rfl

theorem spec_gen_c_array (n : Node) : Spec (gen_c_array n) (emit_c_array n) :=
  (spec_master (2 * sizeOf n)).2.2.2.2.2.1 n le_rfl

theorem spec_gen_json (n : Node) : Spec (gen_json n) (emit_json n) :=
  (spec_master (2 * sizeOf n + 1)).2.2.2.2.2.2.2.2.2.1 n le_rfl

/-- Emission of the root `gen_primitive` call of `json_generate`. -/
def emit_primitive_root (n : Node) : Option (List Char) :=
  match n with
  | .mk nm v cnt sty vty =>
      if cnt.isSome then emit_c_array (.mk nm v cnt sty vty)
      else emit_funcall vty v

theorem spec_gen_primitive_root (n : Node) :
    Spec (gen_primitive_root n) (emit_primitive_root n) := by
  rcases n with ⟨nm, v, cnt, sty, vty⟩
  cases cnt with
  | some c => exact spec_gen_c_array (.mk nm v (some c) sty vty)
  | none => exact spec_gen_funcall vty v

/-- The byte string `json_generate` emits before the `NUL` (not counting
the `NUL`), or `none` when generation fails at every capacity. -/
def emit_root (tjs : List Node) : Option (List Char) :=
  match tjs with
  | [] => none
  | root :: _ =>
      match root.stype with
      | .t_to_array => emit_array (.vnodes tjs)
      | .t_to_object => emit_object (.vnodes tjs)
      | .t_to_primitive => emit_primitive_root root
      | _ => none

/-- Complete characterization of `json_generate_x`: either the tree has an
emission `w` and the capacity covers `w` plus the `NUL`, in which case the
call succeeds, returns `w.length` and stores `w ++ NUL`; or the call
fails, returns 0, has written at most `len - 1` bytes, and the failure is
due to the tree having no emission or the capacity being short. -/
theorem json_generate_x_cases (tjs : List Node) (len : Nat) :
    (∃ w, emit_root tjs = some w ∧ w.length + 1 ≤ len ∧
       json_generate_x tjs len = (true, w.length, w ++ ['\x00'])) ∨
    ((json_generate_x tjs len).1 = false ∧
     (json_generate_x tjs len).2.1 = 0 ∧
     (json_generate_x tjs len).2.2.length ≤ len - 1 ∧
     (emit_root tjs = none ∨
       ∃ w, emit_root tjs = some w ∧ len < w.length + 1)) := by
  match tjs with
  | [] =>
      right
      exact ⟨rfl, rfl, by simp [json_generate_x], Or.inl rfl⟩
  | root :: rest =>
      rcases Nat.lt_or_ge len 1 with hlen | hlen
      · have hl0 : len = 0 := by omega
        subst hl0
        right
        refine ⟨rfl, rfl, by simp [json_generate_x, reduce_rem_len], ?_⟩
        cases he : emit_root (root :: rest) with
        | none => exact Or.inl rfl
        | some w => exact Or.inr ⟨w, rfl, by omega⟩
      · have hred : reduce_rem_len 1 ⟨[], len⟩ = some ⟨[], len - 1⟩ := by
          simp [reduce_rem_len]
          omega
        have hst : ∀ (g : PtrVal → GState → Res) (e : PtrVal → Option (List Char))
            (v : PtrVal), Spec (g v) (e v) →
            json_generate_x (root :: rest) len =
              (match g v ⟨[], len - 1⟩ with
               | .fail st => (false, 0, st.out)
               | .ok st => (true, st.out.length, st.out ++ ['\x00'])) →
            (∃ w, e v = some w ∧ w.length + 1 ≤ len ∧
               json_generate_x (root :: rest) len = (true, w.length, w ++ ['\x00'])) ∨
            ((json_generate_x (root :: rest) len).1 = false ∧
             (json_generate_x (root :: rest) len).2.1 = 0 ∧
             (json_generate_x (root :: rest) len).2.2.length ≤ len - 1 ∧
             (e v = none ∨ ∃ w, e v = some w ∧ len < w.length + 1)) := by
          intro g e v hspec hx
          have hs := hspec ⟨[], len - 1⟩
          cases he : e v with
          | none =>
              rw [he] at hs
              obtain ⟨st', hfs, hb⟩ := hs
              right
              rw [hx, hfs]
              simp at hb
              exact ⟨rfl, rfl, by simp; omega, Or.inl rfl⟩
          | some w =>
              rw [he] at hs
              rcases Nat.lt_or_ge (len - 1) w.length with hcap | hcap
              · obtain ⟨st', hfs, hb⟩ := hs.2 hcap
                right
                rw [hx, hfs]
                simp at hb
                exact ⟨rfl, rfl, by simp; omega,
                  Or.inr ⟨w, rfl, by omega⟩⟩
              · have hok := hs.1 hcap
                left
                refine ⟨w, rfl, by omega, ?_⟩
                rw [hx, hok]
                simp
        cases hsty : root.stype with
        | t_to_array =>
            have her : emit_root (root :: rest) = emit_array (.vnodes (root :: rest)) := by
              rw [emit_root, hsty]
            rw [her]
            refine hst (fun v => gen_array v) (fun v => emit_array v) _
              (spec_gen_array _) ?_
            simp only [json_generate_x, hred, hsty]
        | t_to_object =>
            have her : emit_root (root :: rest) = emit_object (.vnodes (root :: rest)) := by
              rw [emit_root, hsty]
            rw [her]
            refine hst (fun v => gen_object v) (fun v => emit_object v) _
              (spec_gen_object _) ?_
            simp only [json_generate_x, hred, hsty]
        | t_to_primitive =>
            have her : emit_root (root :: rest) = emit_primitive_root root := by
              rw [emit_root, hsty]
            rw [her]
            refine hst (fun _ => gen_primitive_root root)
              (fun _ => emit_primitive_root root) PtrVal.vnull
              (spec_gen_primitive_root root) ?_
            simp only [json_generate_x, hred, hsty]
        | t_to_boolean =>
            have her : emit_root (root :: rest) = none := by
              rw [emit_root, hsty]
            rw [her]
            right
            refine ⟨?_, ?_, ?_, Or.inl rfl⟩ <;>
              simp only [json_generate_x, hred, hsty] <;> simp
        | t_to_hex =>
            have her : emit_root (root :: rest) = none := by
              rw [emit_root, hsty]
            rw [her]
            right
            refine ⟨?_, ?_, ?_, Or.inl rfl⟩ <;>
              simp only [json_generate_x, hred, hsty] <;> simp
        | t_to_integer =>
            have her : emit_root (root :: rest) = none := by
              rw [emit_root, hsty]
            rw [her]
            right
            refine ⟨?_, ?_, ?_, Or.inl rfl⟩ <;>
              simp only [json_generate_x, hred, hsty] <;> simp
        | t_to_null =>
            have her : emit_root (root :: rest) = none := by
              rw [emit_root, hsty]
            rw [her]
            right
            refine ⟨?_, ?_, ?_, Or.inl rfl⟩ <;>
              simp only [json_generate_x, hred, hsty] <;> simp
        | t_to_string =>
            have her : emit_root (root :: rest) = none := by
              rw [emit_root, hsty]
            rw [her]
            right
            refine ⟨?_, ?_, ?_, Or.inl rfl⟩ <;>
              simp only [json_generate_x, hred, hsty] <;> simp
        | t_to_uinteger =>
            have her : emit_root (root :: rest) = none := by
              rw [emit_root, hsty]
            rw [her]
            right
            refine ⟨?_, ?_, ?_, Or.inl rfl⟩ <;>
              simp only [json_generate_x, hred, hsty] <;> simp
        | t_to_value =>
            have her : emit_root (root :: rest) = none := by
              rw [emit_root, hsty]
            rw [her]
            right
            refine ⟨?_, ?_, ?_, Or.inl rfl⟩ <;>
              simp only [json_generate_x, hred, hsty] <;> simp

/-! ## String escaping (specification side) -/

/-- The escaping the spec describes: wrap in quotes and backslash-escape
exactly the embedded `"` and `\` characters, altering nothing else. This
definition follows the spec's words; the code's scan-and-copy loop is
proved to produce it. -/
def escapeSpec : List Char → List Char
  | [] => []
  | c :: cs =>
      if c = '"' ∨ c = '\\' then '\\' :: c :: escapeSpec cs
      else c :: escapeSpec cs

theorem findEsc_none_escapeSpec :
    ∀ {s : List Char}, findEsc s = none → escapeSpec s = s := by
  intro s
  induction s with
  | nil => intro h; rfl
  | cons c cs ih =>
      intro h
      simp only [findEsc] at h
      split at h
      · simp at h
      · rename_i hc
        simp only [Option.map_eq_none'] at h
        simp only [escapeSpec, if_neg hc]
        rw [ih h]

theorem findEsc_some_escapeSpec :
    ∀ {s : List Char} {i : Nat}, findEsc s = some i →
      escapeSpec s =
        s.take i ++ '\\' :: s.getD i ' ' :: escapeSpec (s.drop (i + 1)) := by
  intro s
  induction s with
  | nil => intro i h; simp [findEsc] at h
  | cons c cs ih =>
      intro i h
      simp only [findEsc] at h
      split at h
      · rename_i hc
        simp only [Option.some.injEq] at h
        subst h
        simp only [escapeSpec, if_pos hc]
        rfl
      · rename_i hc
        match hcs : findEsc cs with
        | none => rw [hcs] at h; simp at h
        | some j =>
            rw [hcs] at h
            simp only [Option.map_some', Option.some.injEq] at h
            subst h
            simp only [escapeSpec, if_neg hc]
            rw [ih hcs]
            simp [List.take_cons, List.getD_cons_succ, List.drop_succ_cons]

theorem emit_string_loop_escapeSpec :
    ∀ (k : Nat) (s : List Char), s.length ≤ k →
      emit_string_loop s = escapeSpec s := by
  intro k
  induction k with
  | zero =>
      intro s hs
      have hnil : s = [] := List.length_eq_zero.mp (Nat.le_zero.mp hs)
      subst hnil
      rw [@emit_string_loop_eq_none [] rfl]
      rfl
  | succ k ih =>
      intro s hs
      cases hfe : findEsc s with
      | none => rw [emit_string_loop_eq_none hfe, findEsc_none_escapeSpec hfe]
      | some i =>
          have hil := findEsc_lt_length hfe
          rw [emit_string_loop_eq_some hfe, findEsc_some_escapeSpec hfe]
          by_cases hemp : (s.drop (i + 1)).isEmpty
          · have hny : s.drop (i + 1) = [] := List.isEmpty_iff.mp hemp
            rw [hny]
            rfl
          · simp only [hemp, if_false]
            rw [ih (s.drop (i + 1)) (by simp [List.length_drop]; omega)]
            simp

/-! ## Decimal formatting correctness -/

/-- The numeric value denoted by a decimal digit string (specification
side). -/
def digitsVal (l : List Char) : Nat :=
  l.foldl (fun acc c => 10 * acc + (c.toNat - '0'.toNat)) 0

theorem uDigit_toNat (d : Nat) (h : d < 10) : (uDigit d).toNat = d + 48 := by
  interval_cases d <;> decide

theorem uDigit_dec_range (d : Nat) (h : d < 10) :
    '0'.toNat ≤ (uDigit d).toNat ∧ (uDigit d).toNat ≤ '9'.toNat := by
  interval_cases d <;> decide

theorem uDigit_eq_zero_iff (d : Nat) (h : d < 10) : uDigit d = '0' ↔ d = 0 := by
  interval_cases d <;> decide

theorem utoaChars10_ne_nil (n : Nat) : utoaChars 10 n ≠ [] := by
  rw [utoaChars]
  split
  · omega
  · split
    · simp
    · simp

theorem utoaChars10_spec :
    ∀ (k n : Nat), n ≤ k →
      digitsVal (utoaChars 10 n) = n ∧
      (∀ c ∈ utoaChars 10 n, '0'.toNat ≤ c.toNat ∧ c.toNat ≤ '9'.toNat) ∧
      ((utoaChars 10 n).head? = some '0' → n = 0) := by
  intro k
  induction k with
  | zero =>
      intro n hn
      have hn0 : n = 0 := Nat.le_zero.mp hn
      subst hn0
      have h0 : utoaChars 10 0 = ['0'] := by rw [utoaChars]; decide
      rw [h0]
      refine ⟨by decide, ?_, by decide⟩
      intro c hc
      simp at hc
      subst hc
      decide
  | succ k ih =>
      intro n hn
      rcases Nat.lt_or_ge n 10 with h10 | h10
      · have he : utoaChars 10 n = [uDigit n] := by
          rw [utoaChars]
          rw [if_neg (by omega), if_pos h10]
        rw [he]
        refine ⟨?_, ?_, ?_⟩
        · simp [digitsVal, uDigit_toNat n h10]
        · intro c hc
          simp at hc
          subst hc
          exact uDigit_dec_range n h10
        · intro hh
          simp at hh
          exact (uDigit_eq_zero_iff n h10).mp hh
      · have he : utoaChars 10 n =
            utoaChars 10 (n / 10) ++ [uDigit (n % 10)] := by
          rw [utoaChars]
          rw [if_neg (by omega), if_neg (by omega)]
        have hdiv : n / 10 ≤ k := by omega
        obtain ⟨ihv, ihd, ihz⟩ := ih (n / 10) hdiv
        have hmod : n % 10 < 10 := Nat.mod_lt _ (by omega)
        rw [he]
        refine ⟨?_, ?_, ?_⟩
        · have hv : digitsVal (utoaChars 10 (n / 10) ++ [uDigit (n % 10)]) =
              10 * digitsVal (utoaChars 10 (n / 10)) +
                ((uDigit (n % 10)).toNat - '0'.toNat) := by
            simp [digitsVal, List.foldl_append]
          rw [hv, ihv, uDigit_toNat _ hmod]
          have hz : '0'.toNat = 48 := by decide
          rw [hz]
          omega
        · intro c hc
          simp only [List.mem_append, List.mem_singleton] at hc
          rcases hc with hc | hc
          · exact ihd c hc
          · subst hc
            exact uDigit_dec_range _ hmod
        · intro hh
          rcases hne : utoaChars 10 (n / 10) with _ | ⟨c0, rest⟩
          · exact absurd hne (utoaChars10_ne_nil _)
          · rw [hne] at hh
            simp at hh
            have := ihz (by rw [hne]; simp [hh])
            omega

/-- The C idiom `u = -(unsigned)n` recovers the true magnitude of a
negative `int`, including `INT_MIN`. -/
theorem int_unsigned_neg_magnitude (i : Int) (h1 : -(2 ^ 31) ≤ i) (h2 : i < 0) :
    (2 ^ 32 - (i % (2 ^ 32 : Int)).toNat) % 2 ^ 32 = i.natAbs := by
  have e1 : ((2 : Int) ^ 32) = 4294967296 := by norm_num
  have e2 : ((2 : Int) ^ 31) = 2147483648 := by norm_num
  have e3 : ((2 : Nat) ^ 32) = 4294967296 := by norm_num
  rw [e1, e3]
  rw [e2] at h1
  omega

theorem int_unsigned_nonneg (i : Int) (h1 : 0 ≤ i) (h2 : i < 2 ^ 31) :
    (i % (2 ^ 32 : Int)).toNat = i.natAbs := by
  have e1 : ((2 : Int) ^ 32) = 4294967296 := by norm_num
  have e2 : ((2 : Int) ^ 31) = 2147483648 := by norm_num
  rw [e1]
  rw [e2] at h2
  omega

/-! ## NUL-freeness

C strings cannot contain an interior `NUL`; the following predicates state
that every string and key in the modelled tree is `NUL`-free, as every
tree coming from an actual C caller is. Under this assumption, everything
a generator emits before the terminator is `NUL`-free. -/

/-- No `NUL` byte in a modelled C string. -/
def strNulFree (s : List Char) : Bool :=
  s.all fun c => !(c == '\x00')

mutual
/-- All strings reachable from a `value` pointer are `NUL`-free. -/
def nulFreeV : PtrVal → Bool
  | .vnull => true
  | .vbool _ => true
  | .vuns _ => true
  | .vint _ => true
  | .vstr s => strNulFree s
  | .vnode n => nulFreeN n
  | .vnodes ns => nulFreeL ns
  | .vbools _ => true
  | .vunss _ => true
  | .vints _ => true
  | .vstrs l => l.all fun o => strNulFree (o.getD [])
  | .vnodeps l => nulFreePL l
termination_by v => 2 * sizeOf v
decreasing_by all_goals simp_wf <;> omega

/-- The node's key (when present) and value are `NUL`-free. -/
def nulFreeN : Node → Bool
  | .mk nm v _ _ _ => strNulFree (nm.getD []) && nulFreeV v
termination_by n => 2 * sizeOf n
decreasing_by all_goals simp_wf <;> omega

/-- All nodes of a sibling list are `NUL`-free. -/
def nulFreeL : List Node → Bool
  | [] => true
  | n :: rest => nulFreeN n && nulFreeL rest
termination_by ns => 2 * sizeOf ns
decreasing_by all_goals simp_wf <;> omega

/-- All node lists of a pointer run are `NUL`-free. -/
def nulFreePL : List (Option (List Node)) → Bool
  | [] => true
  | none :: rest => nulFreePL rest
  | some ns :: rest => nulFreeL ns && nulFreePL rest
termination_by l => 2 * sizeOf l
decreasing_by all_goals simp_wf <;> omega
end

theorem strNulFree_not_mem {s : List Char} (h : strNulFree s = true) :
    '\x00' ∉ s := by
  intro hm
  simp only [strNulFree, List.all_eq_true] at h
  have := h _ hm
  simp at this

theorem uDigit_ne_nul (d : Nat) : uDigit d ≠ '\x00' := by
  unfold uDigit
  rcases Nat.lt_or_ge d 16 with h | h
  · interval_cases d <;> decide
  · rw [List.getD_eq_default]
    · decide
    · simpa using h

theorem utoaChars_not_nul :
    ∀ (k base n : Nat), n ≤ k → '\x00' ∉ utoaChars base n := by
  intro k
  induction k with
  | zero =>
      intro base n hn hm
      have hn0 : n = 0 := Nat.le_zero.mp hn
      subst hn0
      rw [utoaChars] at hm
      split at hm
      · simp at hm
      · split at hm
        · simp at hm
          exact uDigit_ne_nul 0 hm.symm
        · rename_i hb hlt
          omega
  | succ k ih =>
      intro base n hn hm
      rw [utoaChars] at hm
      split at hm
      · simp at hm
      · split at hm
        · simp at hm
          exact uDigit_ne_nul n hm.symm
        · rename_i hb hlt
          simp only [List.mem_append, List.mem_singleton] at hm
          rcases hm with hm | hm
          · exact ih base (n / base) (by
              have : n / base < n := Nat.div_lt_self (by omega) (by omega)
              omega) hm
          · exact uDigit_ne_nul _ hm.symm

theorem emit_string_loop_mem :
    ∀ (k : Nat) (s : List Char), s.length ≤ k →
      ∀ c, c ∈ emit_string_loop s → c ∈ s ∨ c = '\\' := by
  intro k
  induction k with
  | zero =>
      intro s hs c hc
      have hnil : s = [] := List.length_eq_zero.mp (Nat.le_zero.mp hs)
      subst hnil
      rw [@emit_string_loop_eq_none [] rfl] at hc
      exact Or.inl hc
  | succ k ih =>
      intro s hs c hc
      cases hfe : findEsc s with
      | none =>
          rw [emit_string_loop_eq_none hfe] at hc
          exact Or.inl hc
      | some i =>
          have hil := findEsc_lt_length hfe
          have hgd : s.getD i ' ' ∈ s := by
            rw [List.getD_eq_getElem s ' ' hil]
            exact List.getElem_mem hil
          rw [emit_string_loop_eq_some hfe] at hc
          simp only [List.mem_append, List.mem_cons, List.not_mem_nil, or_false,
            List.mem_ite_nil_left] at hc
          rcases hc with hc | (hc | hc) | ⟨hne, hc⟩
          · exact Or.inl (List.take_subset i s hc)
          · exact Or.inr hc
          · subst hc
            exact Or.inl hgd
          · rcases ih (s.drop (i + 1))
                (by simp [List.length_drop]; omega) c hc with hm | hm
            · exact Or.inl (List.drop_subset (i + 1) s hm)
            · exact Or.inr hm

theorem emit_string_loop_not_nul {s : List Char} (hns : '\x00' ∉ s) :
    '\x00' ∉ emit_string_loop s := by
  intro hm
  rcases emit_string_loop_mem s.length s le_rfl '\x00' hm with h | h
  · exact hns h
  · simp at h

theorem not_nul_wrap {X : Option (List Char)} {pre post w : List Char}
    (hX : ∀ w0, X = some w0 → '\x00' ∉ w0)
    (hpre : '\x00' ∉ pre) (hpost : '\x00' ∉ post)
    (h : X.map (fun w0 => pre ++ w0 ++ post) = some w) : '\x00' ∉ w := by
  rcases Option.map_eq_some'.mp h with ⟨w0, hw0, hww⟩
  subst hww
  intro hm
  rcases List.mem_append.mp hm with hm | hm
  · rcases List.mem_append.mp hm with hm | hm
    · exact hpre hm
    · exact hX w0 hw0 hm
  · exact hpost hm

theorem not_nul_bind_map {X Y : Option (List Char)} {w : List Char}
    (hX : ∀ w0, X = some w0 → '\x00' ∉ w0)
    (hY : ∀ w0, Y = some w0 → '\x00' ∉ w0)
    (h : (X.bind fun w1 => Y.map fun w2 => w1 ++ w2) = some w) : '\x00' ∉ w := by
  rcases Option.bind_eq_some.mp h with ⟨w1, hw1, h2⟩
  rcases Option.map_eq_some'.mp h2 with ⟨w2, hw2, hww⟩
  subst hww
  intro hm
  rcases List.mem_append.mp hm with hm | hm
  · exact hX w1 hw1 hm
  · exact hY w2 hw2 hm

theorem emit_boolean_not_nul :
    ∀ v w, emit_boolean v = some w → '\x00' ∉ w := by
  intro v w h
  cases v with
  | vnull =>
      simp only [emit_boolean, Option.some.injEq] at h
      subst h
      decide
  | vbool b =>
      simp only [emit_boolean, Option.some.injEq] at h
      subst h
      cases b <;> decide
  | vuns u => simp [emit_boolean] at h
  | vint i => simp [emit_boolean] at h
  | vstr s => simp [emit_boolean] at h
  | vnode n => simp [emit_boolean] at h
  | vnodes ns => simp [emit_boolean] at h
  | vbools l => simp [emit_boolean] at h
  | vunss l => simp [emit_boolean] at h
  | vints l => simp [emit_boolean] at h
  | vstrs l => simp [emit_boolean] at h
  | vnodeps l => simp [emit_boolean] at h

theorem emit_hex_not_nul :
    ∀ v w, emit_hex v = some w → '\x00' ∉ w := by
  intro v w h
  cases v with
  | vnull =>
      simp only [emit_hex, Option.some.injEq] at h
      subst h
      decide
  | vuns u =>
      simp only [emit_hex, Option.some.injEq] at h
      subst h
      intro hm
      rcases List.mem_append.mp hm with hm | hm
      · rcases List.mem_append.mp hm with hm | hm
        · simp at hm
        · exact utoaChars_not_nul u 16 u le_rfl hm
      · simp at hm
  | vbool b => simp [emit_hex] at h
  | vint i => simp [emit_hex] at h
  | vstr s => simp [emit_hex] at h
  | vnode n => simp [emit_hex] at h
  | vnodes ns => simp [emit_hex] at h
  | vbools l => simp [emit_hex] at h
  | vunss l => simp [emit_hex] at h
  | vints l => simp [emit_hex] at h
  | vstrs l => simp [emit_hex] at h
  | vnodeps l => simp [emit_hex] at h

theorem emit_integer_not_nul :
    ∀ v w, emit_integer v = some w → '\x00' ∉ w := by
  intro v w h
  cases v with
  | vnull =>
      simp only [emit_integer, Option.some.injEq] at h
      subst h
      decide
  | vint i =>
      by_cases hi : i < 0
      · simp only [emit_integer, if_pos hi, Option.some.injEq] at h
        subst h
        intro hm
        rcases List.mem_cons.mp hm with hm | hm
        · simp at hm
        · exact utoaChars_not_nul _ 10 _ le_rfl hm
      · simp only [emit_integer, if_neg hi, Option.some.injEq] at h
        subst h
        exact utoaChars_not_nul _ 10 _ le_rfl
  | vbool b => simp [emit_integer] at h
  | vuns u => simp [emit_integer] at h
  | vstr s => simp [emit_integer] at h
  | vnode n => simp [emit_integer] at h
  | vnodes ns => simp [emit_integer] at h
  | vbools l => simp [emit_integer] at h
  | vunss l => simp [emit_integer] at h
  | vints l => simp [emit_integer] at h
  | vstrs l => simp [emit_integer] at h
  | vnodeps l => simp [emit_integer] at h

theorem emit_uinteger_not_nul :
    ∀ v w, emit_uinteger v = some w → '\x00' ∉ w := by
  intro v w h
  cases v with
  | vnull =>
      simp only [emit_uinteger, Option.some.injEq] at h
      subst h
      decide
  | vuns u =>
      simp only [emit_uinteger, Option.some.injEq] at h
      subst h
      exact utoaChars_not_nul _ 10 _ le_rfl
  | vbool b => simp [emit_uinteger] at h
  | vint i => simp [emit_uinteger] at h
  | vstr s => simp [emit_uinteger] at h
  | vnode n => simp [emit_uinteger] at h
  | vnodes ns => simp [emit_uinteger] at h
  | vbools l => simp [emit_uinteger] at h
  | vunss l => simp [emit_uinteger] at h
  | vints l => simp [emit_uinteger] at h
  | vstrs l => simp [emit_uinteger] at h
  | vnodeps l => simp [emit_uinteger] at h

theorem emit_value_not_nul :
    ∀ v w, nulFreeV v = true → emit_value v = some w → '\x00' ∉ w := by
  intro v w hnf h
  cases v with
  | vstr s =>
      simp only [emit_value, Option.some.injEq] at h
      subst h
      rw [nulFreeV] at hnf
      exact strNulFree_not_mem hnf
  | vnull => simp [emit_value] at h
  | vbool b => simp [emit_value] at h
  | vuns u => simp [emit_value] at h
  | vint i => simp [emit_value] at h
  | vnode n => simp [emit_value] at h
  | vnodes ns => simp [emit_value] at h
  | vbools l => simp [emit_value] at h
  | vunss l => simp [emit_value] at h
  | vints l => simp [emit_value] at h
  | vstrs l => simp [emit_value] at h
  | vnodeps l => simp [emit_value] at h

theorem emit_string_not_nul :
    ∀ v w, nulFreeV v = true → emit_string v = some w → '\x00' ∉ w := by
  intro v w hnf h
  cases v with
  | vnull =>
      simp only [emit_string, Option.some.injEq] at h
      subst h
      decide
  | vstr s =>
      simp only [emit_string, Option.some.injEq] at h
      subst h
      rw [nulFreeV] at hnf
      intro hm
      rcases List.mem_append.mp hm with hm | hm
      · rcases List.mem_append.mp hm with hm | hm
        · simp at hm
        · exact emit_string_loop_not_nul (strNulFree_not_mem hnf) hm
      · simp at hm
  | vbool b => simp [emit_string] at h
  | vuns u => simp [emit_string] at h
  | vint i => simp [emit_string] at h
  | vnode n => simp [emit_string] at h
  | vnodes ns => simp [emit_string] at h
  | vbools l => simp [emit_string] at h
  | vunss l => simp [emit_string] at h
  | vints l => simp [emit_string] at h
  | vstrs l => simp [emit_string] at h
  | vnodeps l => simp [emit_string] at h

theorem emit_carr_run_not_nul {α : Type} {e : α → Option (List Char)}
    {Q : α → Prop} (he : ∀ a w, Q a → e a = some w → '\x00' ∉ w) :
    ∀ (l : List α) (cnt : Nat) (w : List Char), (∀ a ∈ l, Q a) →
      emit_carr_run e l cnt = some w → '\x00' ∉ w := by
  intro l
  induction l with
  | nil =>
      intro cnt w _ h
      cases cnt with
      | zero =>
          simp only [emit_carr_run, Option.some.injEq] at h
          subst h
          simp
      | succ c => simp [emit_carr_run] at h
  | cons a rest ih =>
      intro cnt w hQ h
      cases cnt with
      | zero =>
          simp only [emit_carr_run, Option.some.injEq] at h
          subst h
          simp
      | succ c =>
          rw [show emit_carr_run e (a :: rest) (c + 1) =
              (e a).bind fun w1 =>
                if c = 0 then some w1
                else (emit_carr_run e rest c).map fun w2 =>
                  w1 ++ (',' :: (' ' :: w2)) from rfl] at h
          rcases Option.bind_eq_some.mp h with ⟨w1, hw1, h2⟩
          have hnm1 : '\x00' ∉ w1 :=
            he a w1 (hQ a (List.mem_cons_self a rest)) hw1
          by_cases hc : c = 0
          · rw [if_pos hc] at h2
            simp only [Option.some.injEq] at h2
            subst h2
            exact hnm1
          · rw [if_neg hc] at h2
            rcases Option.map_eq_some'.mp h2 with ⟨w2, hw2, hww⟩
            subst hww
            have hnm2 : '\x00' ∉ w2 :=
              ih c w2 (fun x hx => hQ x (List.mem_cons_of_mem a hx)) hw2
            intro hm
            rcases List.mem_append.mp hm with hm | hm
            · exact hnm1 hm
            · rcases List.mem_cons.mp hm with hm | hm
              · simp at hm
              · rcases List.mem_cons.mp hm with hm | hm
                · simp at hm
                · exact hnm2 hm

theorem nulFreeN_name {n : Node} (h : nulFreeN n = true) :
    strNulFree (n.name.getD []) = true := by
  rcases n with ⟨nm, v, c, s, t⟩
  rw [nulFreeN] at h
  simp only [Bool.and_eq_true] at h
  exact h.1

theorem nulFreeN_value {n : Node} (h : nulFreeN n = true) :
    nulFreeV n.value = true := by
  rcases n with ⟨nm, v, c, s, t⟩
  rw [nulFreeN] at h
  simp only [Bool.and_eq_true] at h
  exact h.2


/-- Under the `NUL`-freeness assumptions on the input tree, everything the
generators emit is `NUL`-free; proved for all inputs of combined size at
most `k`. -/
theorem nulfree_master : ∀ k : Nat,
    (∀ t v, 2 * sizeOf v + 1 ≤ k → nulFreeV v = true →
      ∀ w, emit_funcall t v = some w → '\x00' ∉ w) ∧
    (∀ v, 2 * sizeOf v ≤ k → nulFreeV v = true →
      ∀ w, emit_array v = some w → '\x00' ∉ w) ∧
    (∀ ns, 2 * sizeOf ns ≤ k → nulFreeL ns = true →
      ∀ w, emit_array_loop ns = some w → '\x00' ∉ w) ∧
    (∀ v, 2 * sizeOf v ≤ k → nulFreeV v = true →
      ∀ w, emit_object v = some w → '\x00' ∉ w) ∧
    (∀ ns, 2 * sizeOf ns ≤ k → nulFreeL ns = true →
      ∀ w, emit_object_loop ns = some w → '\x00' ∉ w) ∧
    (∀ rest, 2 * sizeOf rest + 1 ≤ k → nulFreeL rest = true →
      ∀ w, emit_object_tail rest = some w → '\x00' ∉ w) ∧
    (∀ n, 2 * sizeOf n ≤ k → nulFreeN n = true →
      ∀ w, emit_c_array n = some w → '\x00' ∉ w) ∧
    (∀ t v cnt, 2 * sizeOf v + 1 ≤ k → nulFreeV v = true →
      ∀ w, emit_c_body t v cnt = some w → '\x00' ∉ w) ∧
    (∀ isArr l cnt, 2 * sizeOf l ≤ k → nulFreePL l = true →
      ∀ w, emit_carr_nodeps isArr l cnt = some w → '\x00' ∉ w) ∧
    (∀ isArr rest c, 2 * sizeOf rest + 1 ≤ k → nulFreePL rest = true →
      ∀ w, emit_carr_sep isArr rest c = some w → '\x00' ∉ w) ∧
    (∀ n, 2 * sizeOf n + 1 ≤ k → nulFreeN n = true →
      ∀ w, emit_json n = some w → '\x00' ∉ w) ∧
    (∀ v, 2 * sizeOf v ≤ k → nulFreeV v = true →
      ∀ w, emit_primitive v = some w → '\x00' ∉ w) := by
  intro k
  induction k using Nat.strong_induction_on with
  | _ k ih =>
    have ihF := fun m (hm : m < k) => (ih m hm).1
    have ihA := fun m (hm : m < k) => (ih m hm).2.1
    have ihAL := fun m (hm : m < k) => (ih m hm).2.2.1
    have ihO := fun m (hm : m < k) => (ih m hm).2.2.2.1
    have ihOL := fun m (hm : m < k) => (ih m hm).2.2.2.2.1
    have ihOT := fun m (hm : m < k) => (ih m hm).2.2.2.2.2.1
    have ihCA := fun m (hm : m < k) => (ih m hm).2.2.2.2.2.2.1
    have ihCB := fun m (hm : m < k) => (ih m hm).2.2.2.2.2.2.2.1
    have ihCN := fun m (hm : m < k) => (ih m hm).2.2.2.2.2.2.2.2.1
    have ihCS := fun m (hm : m < k) => (ih m hm).2.2.2.2.2.2.2.2.2.1
    have ihJ := fun m (hm : m < k) => (ih m hm).2.2.2.2.2.2.2.2.2.2.1
    have ihP := fun m (hm : m < k) => (ih m hm).2.2.2.2.2.2.2.2.2.2.2
    refine ⟨?_, ?_, ?_, ?_, ?_, ?_, ?_, ?_, ?_, ?_, ?_, ?_⟩
    -- emit_funcall
    · intro t v hk hnf w h
      have hv : 2 * sizeOf v < k := by omega
      rw [emit_funcall.eq_def] at h
      cases t with
      | t_to_primitive => exact ihP _ hv v le_rfl hnf w h
      | t_to_array => exact ihA _ hv v le_rfl hnf w h
      | t_to_boolean => exact emit_boolean_not_nul v w h
      | t_to_hex => exact emit_hex_not_nul v w h
      | t_to_integer => exact emit_integer_not_nul v w h
      | t_to_null =>
          simp only [Option.some.injEq] at h
          subst h
          decide
      | t_to_object => exact ihO _ hv v le_rfl hnf w h
      | t_to_string => exact emit_string_not_nul v w hnf h
      | t_to_uinteger => exact emit_uinteger_not_nul v w h
      | t_to_value => exact emit_value_not_nul v w hnf h
    -- emit_array
    · intro v hk hnf w h
      rw [emit_array.eq_def] at h
      cases v with
      | vnull =>
          simp only [Option.some.injEq] at h
          subst h
          decide
      | vnodes ns =>
          have hm : 2 * sizeOf ns < k := by simp at hk; omega
          rw [nulFreeV] at hnf
          exact not_nul_wrap (ihAL _ hm ns le_rfl hnf) (by decide) (by decide) h
      | vbool b => simp at h
      | vuns u => simp at h
      | vint i => simp at h
      | vstr s => simp at h
      | vnode n => simp at h
      | vbools l => simp at h
      | vunss l => simp at h
      | vints l => simp at h
      | vstrs l => simp at h
      | vnodeps l => simp at h
    -- emit_array_loop
    · intro ns hk hnf w h
      cases ns with
      | nil =>
          rw [emit_array_loop.eq_def] at h
          simp only [Option.some.injEq] at h
          subst h
          simp
      | cons hd rest =>
          rcases hd with ⟨nm, v, cnt, sty, vty⟩
          rw [nulFreeL] at hnf
          simp only [Bool.and_eq_true] at hnf
          obtain ⟨hnfn, hnfrest⟩ := hnf
          rw [emit_array_loop.eq_def] at h
          cases hv : PtrVal.isNull v with
          | true =>
              simp only [hv] at h
              try rw [if_pos rfl] at h
              try rw [if_pos trivial] at h
              try simp only [Option.some.injEq] at h
              subst h
              simp
          | false =>
              simp only [hv] at h
              try rw [if_neg Bool.false_ne_true] at h
              try rw [if_neg not_false] at h
              have hnfv : nulFreeV v = true := nulFreeN_value hnfn
              have hX : ∀ w0,
                  (if cnt.isSome then emit_c_array (.mk nm v cnt sty vty)
                   else emit_funcall vty v) = some w0 → '\x00' ∉ w0 := by
                cases cnt with
                | some c =>
                    intro w0 hw0
                    have hca : 2 * sizeOf (Node.mk nm v (some c) sty vty) < k := by
                      simp at hk ⊢
                      omega
                    exact ihCA _ hca _ le_rfl hnfn w0 hw0
                | none =>
                    intro w0 hw0
                    have hf : 2 * sizeOf v + 1 < k := by simp at hk ⊢; omega
                    exact ihF _ hf vty v le_rfl hnfv w0 hw0
              have hY : ∀ w0,
                  (match rest with
                   | [] => some []
                   | m :: tl =>
                       if m.value.isNull then some []
                       else (some [',', ' ']).bind fun w2 =>
                         (emit_array_loop (m :: tl)).map fun w3 =>
                           w2 ++ w3) = some w0 → '\x00' ∉ w0 := by
                cases rest with
                | nil =>
                    intro w0 hw0
                    simp only [Option.some.injEq] at hw0
                    subst hw0
                    simp
                | cons m tl =>
                    intro w0 hw0
                    cases hm2 : PtrVal.isNull m.value with
                    | true =>
                        simp only [hm2] at hw0
                        try rw [if_pos rfl] at hw0
                        try rw [if_pos trivial] at hw0
                        try simp only [Option.some.injEq] at hw0
                        subst hw0
                        simp
                    | false =>
                        simp only [hm2] at hw0
                        try rw [if_neg Bool.false_ne_true] at hw0
                        try rw [if_neg not_false] at hw0
                        have hrec : 2 * sizeOf (m :: tl) < k := by
                          simp at hk ⊢
                          omega
                        refine not_nul_bind_map ?_
                          (ihAL _ hrec (m :: tl) le_rfl hnfrest) hw0
                        intro w1 hw1
                        simp only [Option.some.injEq] at hw1
                        subst hw1
                        decide
              exact not_nul_bind_map hX hY h
    -- emit_object
    · intro v hk hnf w h
      rw [emit_object.eq_def] at h
      cases v with
      | vnull =>
          simp only [Option.some.injEq] at h
          subst h
          decide
      | vnodes ns =>
          have hm : 2 * sizeOf ns < k := by simp at hk; omega
          rw [nulFreeV] at hnf
          exact not_nul_wrap (ihOL _ hm ns le_rfl hnf) (by decide) (by decide) h
      | vbool b => simp at h
      | vuns u => simp at h
      | vint i => simp at h
      | vstr s => simp at h
      | vnode n => simp at h
      | vbools l => simp at h
      | vunss l => simp at h
      | vints l => simp at h
      | vstrs l => simp at h
      | vnodeps l => simp at h
    -- emit_object_loop
    · intro ns hk hnf w h
      cases ns with
      | nil =>
          rw [emit_object_loop.eq_def] at h
          simp only [Option.some.injEq] at h
          subst h
          simp
      | cons n rest =>
          rw [nulFreeL] at hnf
          simp only [Bool.and_eq_true] at hnf
          obtain ⟨hnfn, hnfrest⟩ := hnf
          rw [emit_object_loop.eq_def] at h
          cases hname : n.name with
          | none =>
              simp only [hname] at h
              simp only [Option.some.injEq] at h
              subst h
              simp
          | some nm =>
              simp only [hname] at h
              have hnm : '\x00' ∉ ('"' :: (nm ++ ['"', ':', ' '])) := by
                intro hmem
                rcases List.mem_cons.mp hmem with hmem | hmem
                · simp at hmem
                · rcases List.mem_append.mp hmem with hmem | hmem
                  · have hnamefree : strNulFree (n.name.getD []) = true :=
                      nulFreeN_name hnfn
                    rw [hname] at hnamefree
                    exact strNulFree_not_mem hnamefree hmem
                  · simp at hmem
              have hj : 2 * sizeOf n + 1 < k := by simp at hk ⊢; omega
              have ht : 2 * sizeOf rest + 1 < k := by simp at hk ⊢; omega
              refine not_nul_bind_map ?_ ?_ h
              · intro w0 hw0
                simp only [Option.some.injEq] at hw0
                subst hw0
                exact hnm
              · intro w0 hw0
                exact not_nul_bind_map (ihJ _ hj n le_rfl hnfn)
                  (ihOT _ ht rest le_rfl hnfrest) hw0
    -- emit_object_tail
    · intro rest hk hnf w h
      cases rest with
      | nil =>
          rw [emit_object_tail.eq_def] at h
          simp only [Option.some.injEq] at h
          subst h
          simp
      | cons m tl =>
          rw [emit_object_tail.eq_def] at h
          cases hname : m.name with
          | none =>
              simp only [hname] at h
              simp only [Option.some.injEq] at h
              subst h
              simp
          | some nm =>
              simp only [hname] at h
              have hrec : 2 * sizeOf (m :: tl) < k := by omega
              refine not_nul_bind_map ?_ (ihOL _ hrec (m :: tl) le_rfl hnf) h
              intro w1 hw1
              simp only [Option.some.injEq] at hw1
              subst hw1
              decide
    -- emit_c_array
    · intro n hk hnf w h
      rcases n with ⟨nm, v, cnt, sty, vty⟩
      rw [emit_c_array.eq_def] at h
      have hnfv : nulFreeV v = true := nulFreeN_value hnf
      refine not_nul_wrap ?_ (by decide) (by decide) h
      intro w0 hw0
      by_cases hc : cnt.getD 0 = 0
      · rw [if_pos hc] at hw0
        simp only [Option.some.injEq] at hw0
        subst hw0
        simp
      · rw [if_neg hc] at hw0
        have hcb : 2 * sizeOf v + 1 < k := by simp at hk ⊢; omega
        exact ihCB _ hcb vty v (cnt.getD 0) le_rfl hnfv w0 hw0
    -- emit_c_body
    · intro t v cnt hk hnf w h
      rw [emit_c_body.eq_def] at h
      cases t with
      | t_to_primitive =>
          simp at h
      | t_to_array =>
          cases v with
          | vnodeps l =>
              have hb : 2 * sizeOf l < k := by simp at hk; omega
              rw [nulFreeV] at hnf
              exact ihCN _ hb true l cnt le_rfl hnf w h
          | vnull => simp [emit_c_body] at h
          | vbool b => simp [emit_c_body] at h
          | vuns u => simp [emit_c_body] at h
          | vint i => simp [emit_c_body] at h
          | vstr s => simp [emit_c_body] at h
          | vnode n => simp [emit_c_body] at h
          | vnodes ns => simp [emit_c_body] at h
          | vbools l => simp [emit_c_body] at h
          | vunss l => simp [emit_c_body] at h
          | vints l => simp [emit_c_body] at h
          | vstrs l => simp [emit_c_body] at h
      | t_to_boolean =>
          cases v with
          | vbools l =>
              exact emit_carr_run_not_nul
                (fun a w _ ha => emit_boolean_not_nul (PtrVal.vbool a) w ha)
                l cnt w (fun a _ => trivial) h
          | vnull => simp [emit_c_body] at h
          | vbool b => simp [emit_c_body] at h
          | vuns u => simp [emit_c_body] at h
          | vint i => simp [emit_c_body] at h
          | vstr s => simp [emit_c_body] at h
          | vnode n => simp [emit_c_body] at h
          | vnodes ns => simp [emit_c_body] at h
          | vunss l => simp [emit_c_body] at h
          | vints l => simp [emit_c_body] at h
          | vstrs l => simp [emit_c_body] at h
          | vnodeps l => simp [emit_c_body] at h
      | t_to_hex =>
          cases v with
          | vunss l =>
              exact emit_carr_run_not_nul
                (fun a w _ ha => emit_hex_not_nul (PtrVal.vuns a) w ha)
                l cnt w (fun a _ => trivial) h
          | vnull => simp [emit_c_body] at h
          | vbool b => simp [emit_c_body] at h
          | vuns u => simp [emit_c_body] at h
          | vint i => simp [emit_c_body] at h
          | vstr s => simp [emit_c_body] at h
          | vnode n => simp [emit_c_body] at h
          | vnodes ns => simp [emit_c_body] at h
          | vbools l => simp [emit_c_body] at h
          | vints l => simp [emit_c_body] at h
          | vstrs l => simp [emit_c_body] at h
          | vnodeps l => simp [emit_c_body] at h
      | t_to_integer =>
          cases v with
          | vints l =>
              exact emit_carr_run_not_nul
                (fun a w _ ha => emit_integer_not_nul (PtrVal.vint a) w ha)
                l cnt w (fun a _ => trivial) h
          | vnull => simp [emit_c_body] at h
          | vbool b => simp [emit_c_body] at h
          | vuns u => simp [emit_c_body] at h
          | vint i => simp [emit_c_body] at h
          | vstr s => simp [emit_c_body] at h
          | vnode n => simp [emit_c_body] at h
          | vnodes ns => simp [emit_c_body] at h
          | vbools l => simp [emit_c_body] at h
          | vunss l => simp [emit_c_body] at h
          | vstrs l => simp [emit_c_body] at h
          | vnodeps l => simp [emit_c_body] at h
      | t_to_null =>
          simp at h
      | t_to_object =>
          cases v with
          | vnodeps l =>
              have hb : 2 * sizeOf l < k := by simp at hk; omega
              rw [nulFreeV] at hnf
              exact ihCN _ hb false l cnt le_rfl hnf w h
          | vnull => simp [emit_c_body] at h
          | vbool b => simp [emit_c_body] at h
          | vuns u => simp [emit_c_body] at h
          | vint i => simp [emit_c_body] at h
          | vstr s => simp [emit_c_body] at h
          | vnode n => simp [emit_c_body] at h
          | vnodes ns => simp [emit_c_body] at h
          | vbools l => simp [emit_c_body] at h
          | vunss l => simp [emit_c_body] at h
          | vints l => simp [emit_c_body] at h
          | vstrs l => simp [emit_c_body] at h
      | t_to_string =>
          cases v with
          | vstrs l =>
              rw [nulFreeV] at hnf
              refine emit_carr_run_not_nul
                (fun o w hq ha => emit_string_not_nul (optStrPtr o) w ?_ ha)
                l cnt w (fun o ho => List.all_eq_true.mp hnf o ho) h
              cases o with
              | none => rw [optStrPtr, nulFreeV]
              | some s =>
                  rw [optStrPtr, nulFreeV]
                  simpa using hq
          | vnull => simp [emit_c_body] at h
          | vbool b => simp [emit_c_body] at h
          | vuns u => simp [emit_c_body] at h
          | vint i => simp [emit_c_body] at h
          | vstr s => simp [emit_c_body] at h
          | vnode n => simp [emit_c_body] at h
          | vnodes ns => simp [emit_c_body] at h
          | vbools l => simp [emit_c_body] at h
          | vunss l => simp [emit_c_body] at h
          | vints l => simp [emit_c_body] at h
          | vnodeps l => simp [emit_c_body] at h
      | t_to_uinteger =>
          cases v with
          | vunss l =>
              exact emit_carr_run_not_nul
                (fun a w _ ha => emit_uinteger_not_nul (PtrVal.vuns a) w ha)
                l cnt w (fun a _ => trivial) h
          | vnull => simp [emit_c_body] at h
          | vbool b => simp [emit_c_body] at h
          | vuns u => simp [emit_c_body] at h
          | vint i => simp [emit_c_body] at h
          | vstr s => simp [emit_c_body] at h
          | vnode n => simp [emit_c_body] at h
          | vnodes ns => simp [emit_c_body] at h
          | vbools l => simp [emit_c_body] at h
          | vints l => simp [emit_c_body] at h
          | vstrs l => simp [emit_c_body] at h
          | vnodeps l => simp [emit_c_body] at h
      | t_to_value =>
          cases v with
          | vstrs l =>
              rw [nulFreeV] at hnf
              refine emit_carr_run_not_nul
                (fun o w hq ha => emit_value_not_nul (optStrPtr o) w ?_ ha)
                l cnt w (fun o ho => List.all_eq_true.mp hnf o ho) h
              cases o with
              | none => rw [optStrPtr, nulFreeV]
              | some s =>
                  rw [optStrPtr, nulFreeV]
                  simpa using hq
          | vnull => simp [emit_c_body] at h
          | vbool b => simp [emit_c_body] at h
          | vuns u => simp [emit_c_body] at h
          | vint i => simp [emit_c_body] at h
          | vstr s => simp [emit_c_body] at h
          | vnode n => simp [emit_c_body] at h
          | vnodes ns => simp [emit_c_body] at h
          | vbools l => simp [emit_c_body] at h
          | vunss l => simp [emit_c_body] at h
          | vints l => simp [emit_c_body] at h
          | vnodeps l => simp [emit_c_body] at h
    -- emit_carr_nodeps
    · intro isArr l cnt hk hnf w h
      rw [emit_carr_nodeps.eq_def] at h
      cases cnt with
      | zero =>
          simp only [Option.some.injEq] at h
          subst h
          simp
      | succ c =>
          cases l with
          | nil => simp at h
          | cons o rest =>
              have hsep : 2 * sizeOf rest + 1 < k := by
                cases o <;> simp at hk <;> omega
              cases o with
              | none =>
                  rw [nulFreePL] at hnf
                  refine not_nul_bind_map ?_
                    (ihCS _ hsep isArr rest c le_rfl hnf) h
                  intro w0 hw0
                  cases isArr with
                  | true =>
                      try rw [if_pos rfl] at hw0
                      rw [emit_array.eq_def] at hw0
                      simp only [Option.some.injEq] at hw0
                      subst hw0
                      decide
                  | false =>
                      try rw [if_neg Bool.false_ne_true] at hw0
                      rw [emit_object.eq_def] at hw0
                      simp only [Option.some.injEq] at hw0
                      subst hw0
                      decide
              | some ns =>
                  rw [nulFreePL] at hnf
                  simp only [Bool.and_eq_true] at hnf
                  obtain ⟨hns, hrest⟩ := hnf
                  have ha : 2 * sizeOf (PtrVal.vnodes ns) < k := by
                    simp at hk ⊢
                    omega
                  refine not_nul_bind_map ?_
                    (ihCS _ hsep isArr rest c le_rfl hrest) h
                  intro w0 hw0
                  have hnfv : nulFreeV (PtrVal.vnodes ns) = true := by
                    rw [nulFreeV]
                    exact hns
                  cases isArr with
                  | true =>
                      try rw [if_pos rfl] at hw0
                      exact ihA _ ha (.vnodes ns) le_rfl hnfv w0 hw0
                  | false =>
                      try rw [if_neg Bool.false_ne_true] at hw0
                      exact ihO _ ha (.vnodes ns) le_rfl hnfv w0 hw0
    -- emit_carr_sep
    · intro isArr rest c hk hnf w h
      rw [emit_carr_sep.eq_def] at h
      cases c with
      | zero =>
          try rw [if_pos rfl] at h
          try rw [if_pos trivial] at h
          simp only [Option.some.injEq] at h
          subst h
          simp
      | succ c2 =>
          rw [if_neg (by omega)] at h
          have hcn : 2 * sizeOf rest < k := by omega
          refine not_nul_bind_map ?_
            (ihCN _ hcn isArr rest (c2 + 1) le_rfl hnf) h
          intro w0 hw0
          simp only [Option.some.injEq] at hw0
          subst hw0
          decide
    -- emit_json
    · intro n hk hnf w h
      rcases n with ⟨nm, v, cnt, sty, vty⟩
      rw [emit_json.eq_def] at h
      cases cnt with
      | some c =>
          have hca : 2 * sizeOf (Node.mk nm v (some c) sty vty) < k := by omega
          exact ihCA _ hca _ le_rfl hnf w h
      | none =>
          have hf : 2 * sizeOf v + 1 < k := by simp at hk ⊢; omega
          have hnfv : nulFreeV v = true := by
            rw [nulFreeN] at hnf
            simp only [Bool.and_eq_true] at hnf
            exact hnf.2
          exact ihF _ hf vty v le_rfl hnfv w h
    -- emit_primitive
    · intro v hk hnf w h
      rw [emit_primitive.eq_def] at h
      cases v with
      | vnode n =>
          rcases n with ⟨nm, v2, cnt, sty, vty⟩
          have hnfn : nulFreeN (Node.mk nm v2 cnt sty vty) = true := by
            rw [nulFreeV] at hnf
            exact hnf
          cases cnt with
          | some c =>
              have hca : 2 * sizeOf (Node.mk nm v2 (some c) sty vty) < k := by
                simp at hk ⊢
                omega
              exact ihCA _ hca _ le_rfl hnfn w h
          | none =>
              have hf : 2 * sizeOf v2 + 1 < k := by simp at hk ⊢; omega
              have hnfv : nulFreeV v2 = true := by
                rw [nulFreeN] at hnfn
                simp only [Bool.and_eq_true] at hnfn
                exact hnfn.2
              exact ihF _ hf vty v2 le_rfl hnfv w h
      | vnull => simp at h
      | vbool b => simp at h
      | vuns u => simp at h
      | vint i => simp at h
      | vstr s => simp at h
      | vnodes ns => simp at h
      | vbools l => simp at h
      | vunss l => simp at h
      | vints l => simp at h
      | vstrs l => simp at h
      | vnodeps l => simp at h

/-! ## Consequences at the entry point -/

theorem json_generate_x_of_emit {tjs : List Node} {w : List Char} {len : Nat}
    (he : emit_root tjs = some w) (hlen : w.length + 1 ≤ len) :
    json_generate_x tjs len = (true, w.length, w ++ ['\x00']) := by
  rcases json_generate_x_cases tjs len with ⟨w2, hw2, hcap, heq⟩ | ⟨h1, h2, h3, hbad⟩
  · rw [he] at hw2
    injection hw2 with hw2
    subst hw2
    exact heq
  · rcases hbad with hnone | ⟨w2, hw2, hlt⟩
    · rw [he] at hnone
      simp at hnone
    · rw [he] at hw2
      injection hw2 with hw2
      subst hw2
      omega

theorem json_generate_x_of_emit_none {tjs : List Node}
    (he : emit_root tjs = none) (len : Nat) :
    (json_generate_x tjs len).1 = false ∧ (json_generate_x tjs len).2.1 = 0 := by
  rcases json_generate_x_cases tjs len with ⟨w, hw, _, _⟩ | ⟨h1, h2, _, _⟩
  · rw [he] at hw
    simp at hw
  · exact ⟨h1, h2⟩

/-- `NUL`-freeness of the whole emitted text. -/
theorem emit_root_not_nul {tjs : List Node} (hnf : nulFreeL tjs = true)
    {w : List Char} (h : emit_root tjs = some w) : '\x00' ∉ w := by
  match tjs with
  | [] => simp [emit_root] at h
  | root :: rest =>
      rw [emit_root] at h
      cases hsty : root.stype with
      | t_to_array =>
          rw [hsty] at h
          have hv : nulFreeV (PtrVal.vnodes (root :: rest)) = true := by
            rw [nulFreeV]
            exact hnf
          exact (nulfree_master (2 * sizeOf (PtrVal.vnodes (root :: rest)))).2.1
            _ le_rfl hv w h
      | t_to_object =>
          rw [hsty] at h
          have hv : nulFreeV (PtrVal.vnodes (root :: rest)) = true := by
            rw [nulFreeV]
            exact hnf
          exact (nulfree_master (2 * sizeOf (PtrVal.vnodes (root :: rest)))).2.2.2.1
            _ le_rfl hv w h
      | t_to_primitive =>
          rw [hsty] at h
          have hnfn : nulFreeN root = true := by
            rw [nulFreeL] at hnf
            simp only [Bool.and_eq_true] at hnf
            exact hnf.1
          rcases root with ⟨nm, v, cnt, sty, vty⟩
          cases cnt with
          | some c =>
              exact (nulfree_master
                  (2 * sizeOf (Node.mk nm v (some c) sty vty))).2.2.2.2.2.2.1
                _ le_rfl hnfn w h
          | none =>
              have hnfv : nulFreeV v = true := nulFreeN_value hnfn
              exact (nulfree_master (2 * sizeOf v + 1)).1 vty v le_rfl hnfv w h
      | t_to_boolean => rw [hsty] at h; simp at h
      | t_to_hex => rw [hsty] at h; simp at h
      | t_to_integer => rw [hsty] at h; simp at h
      | t_to_null => rw [hsty] at h; simp at h
      | t_to_string => rw [hsty] at h; simp at h
      | t_to_uinteger => rw [hsty] at h; simp at h
      | t_to_value => rw [hsty] at h; simp at h

theorem takeWhile_append_nul {w : List Char} (h : '\x00' ∉ w) :
    (w ++ ['\x00']).takeWhile (fun c => c != '\x00') = w := by
  induction w with
  | nil => decide
  | cons c cs ih =>
      have hc : c ≠ '\x00' := fun hx => h (by rw [hx]; exact List.mem_cons_self _ _)
      have hcs : '\x00' ∉ cs := fun hx => h (List.mem_cons_of_mem _ hx)
      simp only [List.cons_append, List.takeWhile_cons]
      rw [if_pos (by simpa using hc)]
      rw [ih hcs]

theorem getD_append_length {w : List Char} (c d : Char) :
    (w ++ [c]).getD w.length d = c := by
  induction w with
  | nil => rfl
  | cons x xs ih => simpa using ih

/-! ## Concrete test trees -/

/-- The empty object `{}`: a single node with `stype` object whose `name`
is `NULL` (the sentinel is hit immediately). -/
def tObjEmpty : List Node :=
  [Node.mk none PtrVal.vnull none .t_to_object .t_to_object]

/-- A primitive root carrying an empty raw value. -/
def tRawEmpty : List Node :=
  [Node.mk none (PtrVal.vstr []) none .t_to_primitive .t_to_value]

/-- A scalar-`stype` root (invalid for `json_generate`). -/
def tBoolRoot : List Node :=
  [Node.mk none (PtrVal.vbool true) none .t_to_boolean .t_to_boolean]

/-- A counted run of one `NULL` object pointer with element type
`t_to_object`. -/
def tObjRun : List Node :=
  [Node.mk none (PtrVal.vnodeps [none]) (some 1) .t_to_primitive .t_to_object]

/-- Two sibling fields both named `key`, with integer values 1 and 2. -/
def tDup : List Node :=
  [ Node.mk (some ['k', 'e', 'y']) (PtrVal.vint 1) none .t_to_object .t_to_integer,
    Node.mk (some ['k', 'e', 'y']) (PtrVal.vint 2) none .t_to_object .t_to_integer ]

theorem emit_root_tObjEmpty : emit_root tObjEmpty = some ['{', '}'] := by
  show emit_object (.vnodes tObjEmpty) = _
  rw [emit_object.eq_def]
  show Option.map (fun w => ['{'] ++ w ++ ['}']) (emit_object_loop tObjEmpty) = _
  rw [emit_object_loop.eq_def]
  rfl

theorem emit_root_tRawEmpty : emit_root tRawEmpty = some [] := by
  show emit_funcall .t_to_value (.vstr []) = _
  rw [emit_funcall.eq_def]
  rfl

theorem emit_root_tBoolRoot : emit_root tBoolRoot = none := rfl

theorem emit_root_tObjRun :
    emit_root tObjRun = some ['[', 'n', 'u', 'l', 'l', ']'] := by
  have h1 : emit_carr_nodeps false [none] 1 = some (nullChars ++ []) := by
    rw [emit_carr_nodeps.eq_def]
    show (emit_object PtrVal.vnull).bind
      (fun w => (emit_carr_sep false [] 0).map fun w2 => w ++ w2) = _
    rw [emit_object.eq_def, emit_carr_sep.eq_def]
    rfl
  have h2 : emit_c_body .t_to_object (PtrVal.vnodeps [none]) 1 =
      some (nullChars ++ []) := by
    rw [emit_c_body.eq_def]
    exact h1
  show emit_c_array (Node.mk none (PtrVal.vnodeps [none]) (some 1)
    .t_to_primitive .t_to_object) = _
  rw [emit_c_array.eq_def]
  show Option.map (fun w => ['['] ++ w ++ [']'])
    (emit_c_body .t_to_object (PtrVal.vnodeps [none]) 1) = _
  rw [h2]
  rfl

/-- Emission of the first `tDup` field's value. -/
theorem emit_json_key1 :
    emit_json (Node.mk (some ['k', 'e', 'y']) (PtrVal.vint 1) none
      .t_to_object .t_to_integer) = some ['1'] := by
  have hu1 : utoaChars 10 1 = ['1'] := by rw [utoaChars]; rfl
  rw [emit_json.eq_def]
  show emit_funcall .t_to_integer (PtrVal.vint 1) = _
  rw [emit_funcall.eq_def]
  show some (utoaChars 10 1) = _
  rw [hu1]

/-- Emission of the second `tDup` field's value. -/
theorem emit_json_key2 :
    emit_json (Node.mk (some ['k', 'e', 'y']) (PtrVal.vint 2) none
      .t_to_object .t_to_integer) = some ['2'] := by
  have hu2 : utoaChars 10 2 = ['2'] := by rw [utoaChars]; rfl
  rw [emit_json.eq_def]
  show emit_funcall .t_to_integer (PtrVal.vint 2) = _
  rw [emit_funcall.eq_def]
  show some (utoaChars 10 2) = _
  rw [hu2]

theorem emit_root_tDup :
    emit_root tDup =
      some ['{', '"', 'k', 'e', 'y', '"', ':', ' ', '1', ',', ' ',
            '"', 'k', 'e', 'y', '"', ':', ' ', '2', '}'] := by
  have hL2 : emit_object_loop [Node.mk (some ['k', 'e', 'y']) (PtrVal.vint 2) none
      .t_to_object .t_to_integer] = some ['"', 'k', 'e', 'y', '"', ':', ' ', '2'] := by
    rw [emit_object_loop.eq_def]
    show (some ('"' :: (['k', 'e', 'y'] ++ ['"', ':', ' ']))).bind (fun w1 =>
      ((emit_json (Node.mk (some ['k', 'e', 'y']) (PtrVal.vint 2) none
          .t_to_object .t_to_integer)).bind fun w2 =>
        (emit_object_tail []).map fun w3 => w2 ++ w3).map fun w2 => w1 ++ w2) = _
    rw [emit_object_tail.eq_def, emit_json_key2]
    rfl
  have hT : emit_object_tail [Node.mk (some ['k', 'e', 'y']) (PtrVal.vint 2) none
      .t_to_object .t_to_integer] =
      some [',', ' ', '"', 'k', 'e', 'y', '"', ':', ' ', '2'] := by
    rw [emit_object_tail.eq_def]
    show (some [',', ' ']).bind (fun w3 =>
      (emit_object_loop [Node.mk (some ['k', 'e', 'y']) (PtrVal.vint 2) none
        .t_to_object .t_to_integer]).map fun w4 => w3 ++ w4) = _
    rw [hL2]
    rfl
  have hL1 : emit_object_loop tDup =
      some ['"', 'k', 'e', 'y', '"', ':', ' ', '1', ',', ' ',
            '"', 'k', 'e', 'y', '"', ':', ' ', '2'] := by
    rw [emit_object_loop.eq_def]
    show (some ('"' :: (['k', 'e', 'y'] ++ ['"', ':', ' ']))).bind (fun w1 =>
      ((emit_json (Node.mk (some ['k', 'e', 'y']) (PtrVal.vint 1) none
          .t_to_object .t_to_integer)).bind fun w2 =>
        (emit_object_tail [Node.mk (some ['k', 'e', 'y']) (PtrVal.vint 2) none
          .t_to_object .t_to_integer]).map fun w3 => w2 ++ w3).map fun w2 => w1 ++ w2) = _
    rw [emit_json_key1, hT]
    rfl
  show emit_object (.vnodes tDup) = _
  rw [emit_object.eq_def]
  show Option.map (fun w => ['{'] ++ w ++ ['}']) (emit_object_loop tDup) = _
  rw [hL1]
  rfl

/-! ## Concrete runs of the entry point -/

theorem jg_tObjEmpty : json_generate_x tObjEmpty 3 = (true, 2, ['{', '}', '\x00']) :=
  json_generate_x_of_emit emit_root_tObjEmpty (by decide)

theorem jg_tRawEmpty : json_generate_x tRawEmpty 1 = (true, 0, ['\x00']) :=
  json_generate_x_of_emit emit_root_tRawEmpty (by decide)

theorem jg_tObjRun : json_generate_x tObjRun 7 =
    (true, 6, ['[', 'n', 'u', 'l', 'l', ']', '\x00']) :=
  json_generate_x_of_emit emit_root_tObjRun (by decide)

theorem jg_tDup : json_generate_x tDup 21 =
    (true, 20, ['{', '"', 'k', 'e', 'y', '"', ':', ' ', '1', ',', ' ',
                '"', 'k', 'e', 'y', '"', ':', ' ', '2', '}', '\x00']) :=
  json_generate_x_of_emit emit_root_tDup (by decide)

theorem jg_tBoolRoot (len : Nat) :
    (json_generate_x tBoolRoot len).1 = false ∧
    (json_generate_x tBoolRoot len).2.1 = 0 :=
  json_generate_x_of_emit_none emit_root_tBoolRoot len

/-- Every string in `tDup` is `NUL`-free. -/
theorem nulFreeL_tDup : nulFreeL tDup = true := by
  have hN : ∀ i : Int, nulFreeN (Node.mk (some ['k', 'e', 'y']) (PtrVal.vint i) none
      .t_to_object .t_to_integer) = true := by
    intro i
    rw [nulFreeN.eq_def]
    show (strNulFree ['k', 'e', 'y'] && nulFreeV (PtrVal.vint i)) = true
    rw [nulFreeV.eq_def]
    show (strNulFree ['k', 'e', 'y'] && true) = true
    decide
  rw [nulFreeL.eq_def]
  show (nulFreeN (Node.mk (some ['k', 'e', 'y']) (PtrVal.vint 1) none
      .t_to_object .t_to_integer) &&
    nulFreeL [Node.mk (some ['k', 'e', 'y']) (PtrVal.vint 2) none
      .t_to_object .t_to_integer]) = true
  rw [hN 1, nulFreeL.eq_def]
  show (true && (nulFreeN (Node.mk (some ['k', 'e', 'y']) (PtrVal.vint 2) none
      .t_to_object .t_to_integer) && nulFreeL [])) = true
  rw [hN 2, nulFreeL.eq_def]
  rfl

theorem utoaChars_seven : utoaChars 10 7 = ['7'] := by
  rw [utoaChars]
  rfl

/-- A successful `gen_array` emission on a non-`NULL` sibling list always
contains its surrounding brackets. -/
theorem emit_array_vnodes_shape {ns : List Node} {w : List Char}
    (h : emit_array (PtrVal.vnodes ns) = some w) : 2 ≤ w.length := by
  rw [emit_array.eq_def] at h
  change (emit_array_loop ns).map (fun u => ['['] ++ u ++ [']']) = some w at h
  rcases Option.map_eq_some'.mp h with ⟨u, hu, hw⟩
  subst hw
  simp only [List.length_append, List.length_cons, List.length_nil]
  omega

/-- A successful `gen_object` emission on a non-`NULL` sibling list always
contains its surrounding braces. -/
theorem emit_object_vnodes_shape {ns : List Node} {w : List Char}
    (h : emit_object (PtrVal.vnodes ns) = some w) : 2 ≤ w.length := by
  rw [emit_object.eq_def] at h
  change (emit_object_loop ns).map (fun u => ['\x7b'] ++ u ++ ['\x7d']) = some w at h
  rcases Option.map_eq_some'.mp h with ⟨u, hu, hw⟩
  subst hw
  simp only [List.length_append, List.length_cons, List.length_nil]
  omega

/-! ## The claims -/

/-- Claim C1: for every input tree and every buffer capacity `len`,
`json_generate` writes at most `len` bytes into the output buffer in
total, the `NUL` terminator included, whether it succeeds or fails. -/
theorem claim_C1 (tjs : List Node) (len : Nat) :
    (json_generate tjs len).2.length ≤ len := by
  show (json_generate_x tjs len).2.2.length ≤ len
  rcases json_generate_x_cases tjs len with ⟨w, hw, hcap, heq⟩ | ⟨_, _, h3, _⟩
  · rw [heq]
    show (w ++ ['\x00']).length ≤ len
    simp only [List.length_append, List.length_cons, List.length_nil]
    omega
  · omega

/-- Claim C2 (amended): for every input tree that succeeds at some
capacity there is a minimal required length `L` such that `json_generate`
succeeds exactly when the capacity is at least `L + 1`; a tree that the
generator rejects outright (for instance a scalar root `stype`) succeeds
at no capacity, so no such threshold exists for it. -/
theorem claim_C2 (tjs : List Node)
    (h : ∃ len0, (json_generate_x tjs len0).1 = true) :
    ∃ L, ∀ len, ((json_generate_x tjs len).1 = true ↔ L + 1 ≤ len) := by
  obtain ⟨len0, h0⟩ := h
  rcases json_generate_x_cases tjs len0 with ⟨w, hw, hcap, heq⟩ | ⟨h1, _, _, _⟩
  · refine ⟨w.length, fun len => ?_⟩
    rcases json_generate_x_cases tjs len with ⟨w2, hw2, hcap2, heq2⟩ | ⟨h1', _, _, hbad⟩
    · rw [hw] at hw2
      injection hw2 with hww
      subst hww
      constructor
      · intro _
        omega
      · intro _
        rw [heq2]
    · rw [h1']
      constructor
      · intro hc
        exact absurd hc (by simp)
      · intro hlen
        rcases hbad with hnone | ⟨w2, hw2, hlt⟩
        · rw [hw] at hnone
          exact absurd hnone (by simp)
        · rw [hw] at hw2
          injection hw2 with hww
          subst hww
          exact absurd hlen (by omega)
  · rw [h0] at h1
    simp at h1

/-- Witness for C2: the one-field empty object `{}` succeeds at capacity
3, so it has a capacity threshold. -/
theorem claim_C2_witness :
    (∃ len0, (json_generate_x tObjEmpty len0).1 = true) ∧
    ∃ L, ∀ len, ((json_generate_x tObjEmpty len).1 = true ↔ L + 1 ≤ len) :=
  ⟨⟨3, by rw [jg_tObjEmpty]⟩, claim_C2 tObjEmpty ⟨3, by rw [jg_tObjEmpty]⟩⟩

/-- Counterexample to C2 as stated: a boolean root `stype` fails at every
capacity, so no threshold `L` with success exactly above it exists for
this tree. -/
theorem claim_C2_counterexample :
    (∀ len, (json_generate_x tBoolRoot len).1 = false) ∧
    ¬∃ L, ∀ len, ((json_generate_x tBoolRoot len).1 = true ↔ L + 1 ≤ len) := by
  have hf : ∀ len, (json_generate_x tBoolRoot len).1 = false :=
    fun len => (jg_tBoolRoot len).1
  refine ⟨hf, ?_⟩
  rintro ⟨L, hL⟩
  have h := (hL (L + 1)).mpr le_rfl
  rw [hf (L + 1)] at h
  simp at h

/-- Claim C3 (amended): on success the returned count is one less than
the bytes written (the `NUL` is written but not counted), any failure
returns 0, and an `array`/`object` root returns at least 2 on success;
but a successful call can itself return 0, exactly when the emitted text
before the `NUL` is empty (a primitive root with an empty raw value). -/
theorem claim_C3 (tjs : List Node) (len : Nat) :
    ((json_generate_x tjs len).1 = true →
       (json_generate tjs len).1 + 1 = (json_generate tjs len).2.length ∧
       ((json_generate tjs len).1 = 0 ↔ emit_root tjs = some [])) ∧
    ((json_generate_x tjs len).1 = false → (json_generate tjs len).1 = 0) ∧
    (∀ root rest, tjs = root :: rest →
       (root.stype = JType.t_to_array ∨ root.stype = JType.t_to_object) →
       (json_generate_x tjs len).1 = true → 2 ≤ (json_generate tjs len).1) := by
  rcases json_generate_x_cases tjs len with ⟨w, hw, hcap, heq⟩ | ⟨h1, h2, h3, hbad⟩
  · refine ⟨fun _ => ⟨?_, ?_⟩, fun hf => ?_, fun root rest hroot hsty _ => ?_⟩
    · show (json_generate_x tjs len).2.1 + 1 = (json_generate_x tjs len).2.2.length
      rw [heq]
      show w.length + 1 = (w ++ ['\x00']).length
      simp
    · show (json_generate_x tjs len).2.1 = 0 ↔ emit_root tjs = some []
      rw [heq, hw]
      show w.length = 0 ↔ some w = some []
      constructor
      · intro h0
        rw [List.length_eq_zero.mp h0]
      · intro hs
        injection hs with hs
        simp [hs]
    · rw [heq] at hf
      simp at hf
    · subst hroot
      show 2 ≤ (json_generate_x (root :: rest) len).2.1
      rw [heq]
      show 2 ≤ w.length
      rw [emit_root] at hw
      rcases hsty with h | h
      · rw [h] at hw
        exact emit_array_vnodes_shape hw
      · rw [h] at hw
        exact emit_object_vnodes_shape hw
  · refine ⟨fun ht => ?_, fun _ => h2, fun root rest hroot hsty ht => ?_⟩
    · rw [ht] at h1
      simp at h1
    · rw [ht] at h1
      simp at h1

/-- Witness for C3: the empty object at capacity 3 returns 2, one less
than the 3 bytes written, and an object root indeed returns at least 2. -/
theorem claim_C3_witness :
    ((json_generate tObjEmpty 3).1 + 1 = (json_generate tObjEmpty 3).2.length ∧
      ((json_generate tObjEmpty 3).1 = 0 ↔ emit_root tObjEmpty = some [])) ∧
    2 ≤ (json_generate tObjEmpty 3).1 := by
  have hs : (json_generate_x tObjEmpty 3).1 = true := by rw [jg_tObjEmpty]
  exact ⟨(claim_C3 tObjEmpty 3).1 hs,
    (claim_C3 tObjEmpty 3).2.2 (Node.mk none PtrVal.vnull none .t_to_object .t_to_object)
      [] rfl (Or.inr rfl) hs⟩

/-- Counterexample to C3 as stated: a primitive root whose raw value is
the empty string succeeds at capacity 1 (only the `NUL` is written) and
returns 0, so 0 is not an unambiguous failure sentinel. -/
theorem claim_C3_counterexample :
    (json_generate_x tRawEmpty 1).1 = true ∧ (json_generate tRawEmpty 1).1 = 0 := by
  constructor
  · rw [jg_tRawEmpty]
  · show (json_generate_x tRawEmpty 1).2.1 = 0
    rw [jg_tRawEmpty]

/-- Claim C4: on every successful call on a `NUL`-free tree, the returned
integer equals the length of the `NUL`-terminated string written into the
buffer, and the buffer holds the terminator exactly at the returned
index. -/
theorem claim_C4 (tjs : List Node) (len : Nat) (hnf : nulFreeL tjs = true)
    (hs : (json_generate_x tjs len).1 = true) :
    ((json_generate tjs len).2.takeWhile (fun c => c != '\x00')).length =
      (json_generate tjs len).1 ∧
    (json_generate tjs len).2.getD ((json_generate tjs len).1) ' ' = '\x00' := by
  rcases json_generate_x_cases tjs len with ⟨w, hw, hcap, heq⟩ | ⟨h1, _, _, _⟩
  · have hnm : '\x00' ∉ w := emit_root_not_nul hnf hw
    constructor
    · show ((json_generate_x tjs len).2.2.takeWhile (fun c => c != '\x00')).length =
        (json_generate_x tjs len).2.1
      rw [heq]
      show ((w ++ ['\x00']).takeWhile (fun c => c != '\x00')).length = w.length
      rw [takeWhile_append_nul hnm]
    · show (json_generate_x tjs len).2.2.getD ((json_generate_x tjs len).2.1) ' ' = '\x00'
      rw [heq]
      show (w ++ ['\x00']).getD w.length ' ' = '\x00'
      exact getD_append_length '\x00' ' '
  · rw [hs] at h1
    simp at h1

/-- Witness for C4: the duplicate-key object at capacity 21 returns 20,
the length of the text before the terminator, and byte 20 is the `NUL`. -/
theorem claim_C4_witness :
    ((json_generate tDup 21).2.takeWhile (fun c => c != '\x00')).length =
      (json_generate tDup 21).1 ∧
    (json_generate tDup 21).2.getD ((json_generate tDup 21).1) ' ' = '\x00' :=
  claim_C4 tDup 21 nulFreeL_tDup (by rw [jg_tDup])

/-- Claim C5 (amended): the primitive copy steps `strcpy_val` and `utoa`
reserve their exact byte count up front and are all-or-nothing: enough
capacity writes everything, insufficient capacity writes nothing and
fails with the state unchanged. (The claim as stated is wrong for whole
formatters: `gen_string` writes its opening quote before the chunk
checks, so a failing string emission can leave a partial write.) -/
theorem claim_C5 (s : List Char) (n base : Nat) (st : GState) :
    (s.length ≤ st.rem → strcpy_val s st = .ok ⟨st.out ++ s, st.rem - s.length⟩) ∧
    (st.rem < s.length → strcpy_val s st = .fail st) ∧
    ((utoaChars base n).length ≤ st.rem →
       utoa n base st = .ok ⟨st.out ++ utoaChars base n, st.rem - (utoaChars base n).length⟩) ∧
    (st.rem < (utoaChars base n).length → utoa n base st = .fail st) := by
  refine ⟨fun h => ?_, fun h => ?_, fun h => ?_, fun h => ?_⟩
  · simp [strcpy_val, reduce_rem_len, writeR, Nat.not_lt.mpr h]
  · simp [strcpy_val, reduce_rem_len, h]
  · show strcpy_val (utoaChars base n) st = _
    simp [strcpy_val, reduce_rem_len, writeR, Nat.not_lt.mpr h]
  · show strcpy_val (utoaChars base n) st = _
    simp [strcpy_val, reduce_rem_len, h]

/-- Witness for C5: a two-byte copy into five bytes of room writes both
bytes; into one byte of room it writes nothing; `utoa` of 7 with no room
writes nothing. -/
theorem claim_C5_witness :
    strcpy_val ['a', 'b'] ⟨[], 5⟩ = .ok ⟨['a', 'b'], 3⟩ ∧
    strcpy_val ['a', 'b'] ⟨[], 1⟩ = .fail ⟨[], 1⟩ ∧
    utoa 7 10 ⟨[], 0⟩ = .fail ⟨[], 0⟩ :=
  ⟨(claim_C5 ['a', 'b'] 7 10 ⟨[], 5⟩).1 (by decide),
   (claim_C5 ['a', 'b'] 7 10 ⟨[], 1⟩).2.1 (by decide),
   (claim_C5 ['a', 'b'] 7 10 ⟨[], 0⟩).2.2.2 (by rw [utoaChars_seven]; decide)⟩

/-- Counterexample to C5 as stated: emitting the string `a` with 2 bytes
remaining fails after having already written the opening quote, so a
formatter's requested write can be partially performed. -/
theorem claim_C5_counterexample :
    gen_string (PtrVal.vstr ['a']) ⟨[], 2⟩ = .fail ⟨['"'], 0⟩ ∧
    (gen_string (PtrVal.vstr ['a']) ⟨[], 2⟩).state.out ≠ [] := by
  have h : gen_string (PtrVal.vstr ['a']) ⟨[], 2⟩ = .fail ⟨['"'], 0⟩ := by
    show bracketR ['"'] ['"'] (gen_string_loop ['a']) ⟨[], 2⟩ = _
    rw [@gen_string_loop_eq_none ['a'] rfl]
    rfl
  exact ⟨h, by rw [h]; decide⟩

/-- Claim C6: every string value is emitted as an opening quote, the
string with each embedded quote and backslash preceded by a backslash and
nothing else altered, then a closing quote; the input of the spec's
example renders exactly as the spec's expected text. -/
theorem claim_C6 :
    (∀ s : List Char, emit_string (PtrVal.vstr s) =
       some (['"'] ++ escapeSpec s ++ ['"'])) ∧
    emit_string (PtrVal.vstr ['1', '"', '2', '\\', '3', '\\', '4', '"']) =
      some ['"', '1', '\\', '"', '2', '\\', '\\', '3', '\\', '\\', '4', '\\', '"', '"'] := by
  have hall : ∀ s : List Char, emit_string (PtrVal.vstr s) =
      some (['"'] ++ escapeSpec s ++ ['"']) := by
    intro s
    show some (['"'] ++ emit_string_loop s ++ ['"']) = _
    rw [emit_string_loop_escapeSpec s.length s le_rfl]
  refine ⟨hall, ?_⟩
  rw [hall]
  rfl

/-- Claim C7: every in-range signed integer is emitted as its decimal
digits with a leading minus exactly when negative; the magnitude is
computed by unsigned negation and equals the true absolute value over the
whole 32-bit range, the digits are decimal, and there is no leading zero
except for 0 itself. -/
theorem claim_C7 (i : Int) (h1 : -(2 ^ 31) ≤ i) (h2 : i < 2 ^ 31) :
    emit_integer (PtrVal.vint i) =
      some ((if i < 0 then ['-'] else []) ++ utoaChars 10 i.natAbs) ∧
    digitsVal (utoaChars 10 i.natAbs) = i.natAbs ∧
    (∀ c ∈ utoaChars 10 i.natAbs, '0'.toNat ≤ c.toNat ∧ c.toNat ≤ '9'.toNat) ∧
    ((utoaChars 10 i.natAbs).head? = some '0' → i = 0) := by
  have hu := utoaChars10_spec i.natAbs i.natAbs le_rfl
  refine ⟨?_, hu.1, hu.2.1, fun hh => ?_⟩
  · show (if i < 0 then
        some ('-' :: utoaChars 10 ((2 ^ 32 - (i % (2 ^ 32 : Int)).toNat) % 2 ^ 32))
      else some (utoaChars 10 (i % (2 ^ 32 : Int)).toNat)) = _
    by_cases hneg : i < 0
    · rw [if_pos hneg, if_pos hneg, int_unsigned_neg_magnitude i h1 hneg]
      rfl
    · rw [if_neg hneg, if_neg hneg, int_unsigned_nonneg i (Int.not_lt.mp hneg) h2]
      rfl
  · have h0 := hu.2.2 hh
    omega

/-- Witness for C7 at the two's-complement minimum, whose naive negation
would overflow. -/
theorem claim_C7_witness :
    emit_integer (PtrVal.vint (-2147483648)) =
      some ((if (-2147483648 : Int) < 0 then ['-'] else []) ++
        utoaChars 10 (Int.natAbs (-2147483648))) ∧
    digitsVal (utoaChars 10 (Int.natAbs (-2147483648))) = Int.natAbs (-2147483648) ∧
    (∀ c ∈ utoaChars 10 (Int.natAbs (-2147483648)),
       '0'.toNat ≤ c.toNat ∧ c.toNat ≤ '9'.toNat) ∧
    ((utoaChars 10 (Int.natAbs (-2147483648))).head? = some '0' →
       (-2147483648 : Int) = 0) :=
  claim_C7 (-2147483648) (by norm_num) (by norm_num)

/-- Claim C8 (amended): in the homogeneous counted-run path only the
element vtypes `null` and `primitive` are hard failures (`object` as an
element vtype is valid there and renders each pointed-to object), and a
scalar root `stype` makes the whole call fail with the same return 0. -/
theorem claim_C8 :
    (∀ (v : PtrVal) (cnt : Nat) (st : GState),
       gen_c_body .t_to_null v cnt st = .fail st ∧
       gen_c_body .t_to_primitive v cnt st = .fail st) ∧
    (∀ (tjs : List Node) (len : Nat) (root : Node) (rest : List Node),
       tjs = root :: rest →
       (root.stype = JType.t_to_boolean ∨ root.stype = JType.t_to_hex ∨
        root.stype = JType.t_to_integer ∨ root.stype = JType.t_to_null ∨
        root.stype = JType.t_to_string ∨ root.stype = JType.t_to_uinteger ∨
        root.stype = JType.t_to_value) →
       (json_generate_x tjs len).1 = false ∧ (json_generate tjs len).1 = 0) := by
  constructor
  · intro v cnt st
    constructor
    · rw [gen_c_body.eq_def]
    · rw [gen_c_body.eq_def]
  · intro tjs len root rest hroot hsty
    subst hroot
    have hnone : emit_root (root :: rest) = none := by
      rw [emit_root]
      rcases hsty with h | h | h | h | h | h | h <;> rw [h]
    exact json_generate_x_of_emit_none hnone len

/-- Witness for C8: a `null` element vtype fails the run, and a boolean
root `stype` fails the whole call with return 0. -/
theorem claim_C8_witness :
    gen_c_body .t_to_null (PtrVal.vbools [true]) 1 ⟨[], 9⟩ = .fail ⟨[], 9⟩ ∧
    ((json_generate_x tBoolRoot 10).1 = false ∧ (json_generate tBoolRoot 10).1 = 0) :=
  ⟨(claim_C8.1 (PtrVal.vbools [true]) 1 ⟨[], 9⟩).1,
   claim_C8.2 tBoolRoot 10
     (Node.mk none (PtrVal.vbool true) none .t_to_boolean .t_to_boolean) []
     rfl (Or.inl rfl)⟩

/-- Counterexample to C8 as stated: a counted run whose element vtype is
`object` is not a hard failure; it renders successfully (here a single
`NULL` object pointer renders the literal `null` inside brackets). -/
theorem claim_C8_counterexample :
    json_generate tObjRun 7 = (6, ['[', 'n', 'u', 'l', 'l', ']', '\x00']) ∧
    (json_generate_x tObjRun 7).1 = true := by
  constructor
  · show ((json_generate_x tObjRun 7).2.1, (json_generate_x tObjRun 7).2.2) = _
    rw [jg_tObjRun]
  · rw [jg_tObjRun]

/-- Claim C9: a `null` vtype renders the literal `null` whatever the
value pointer holds; a `NULL` value pointer renders `null` under the
composite vtypes `array` and `object` and also under the scalar vtypes
`boolean`, `string`, `hex`, `integer` and `unsigned`; only the raw-value
formatter has no `NULL` check (C `strlen(NULL)` is undefined), modelled
as failure. -/
theorem claim_C9 :
    (∀ v : PtrVal, emit_funcall .t_to_null v = some nullChars) ∧
    emit_array PtrVal.vnull = some nullChars ∧
    emit_object PtrVal.vnull = some nullChars ∧
    emit_boolean PtrVal.vnull = some nullChars ∧
    emit_string PtrVal.vnull = some nullChars ∧
    emit_hex PtrVal.vnull = some nullChars ∧
    emit_integer PtrVal.vnull = some nullChars ∧
    emit_uinteger PtrVal.vnull = some nullChars ∧
    emit_value PtrVal.vnull = none ∧
    (∀ st : GState, gen_value PtrVal.vnull st = Res.fail st) := by
  refine ⟨fun v => ?_, ?_, ?_, rfl, rfl, rfl, rfl, rfl, rfl, fun st => rfl⟩
  · rw [emit_funcall.eq_def]
  · rw [emit_array.eq_def]
  · rw [emit_object.eq_def]

/-- Claim C10: object fields are emitted in declaration order and
duplicate keys pass through verbatim: any two named fields emit as their
two `"name": value` texts in order inside one brace pair, whatever the
names, and the concrete duplicate-key tree renders both `key` fields. -/
theorem claim_C10 :
    (∀ (n1 n2 : Node) (k1 k2 w1 w2 : List Char),
       n1.name = some k1 → n2.name = some k2 →
       emit_json n1 = some w1 → emit_json n2 = some w2 →
       emit_object (PtrVal.vnodes [n1, n2]) =
         some (['{'] ++ ('"' :: (k1 ++ ['"', ':', ' '])) ++ w1 ++ [',', ' '] ++
               ('"' :: (k2 ++ ['"', ':', ' '])) ++ w2 ++ ['}'])) ∧
    json_generate tDup 21 =
      (20, ['{', '"', 'k', 'e', 'y', '"', ':', ' ', '1', ',', ' ',
            '"', 'k', 'e', 'y', '"', ':', ' ', '2', '}', '\x00']) := by
  constructor
  · intro n1 n2 k1 k2 w1 w2 h1 h2 hj1 hj2
    rw [emit_object.eq_def]
    show Option.map (fun w => ['{'] ++ w ++ ['}']) (emit_object_loop [n1, n2]) = _
    rw [emit_object_loop.eq_def]
    simp only [h1]
    rw [hj1, emit_object_tail.eq_def]
    simp only [h2]
    rw [emit_object_loop.eq_def]
    simp only [h2]
    rw [hj2, emit_object_tail.eq_def]
    simp
  · show ((json_generate_x tDup 21).2.1, (json_generate_x tDup 21).2.2) =
      (20, ['{', '"', 'k', 'e', 'y', '"', ':', ' ', '1', ',', ' ',
            '"', 'k', 'e', 'y', '"', ':', ' ', '2', '}', '\x00'])
    rw [jg_tDup]

/-- Witness for C10 at the duplicate-key tree: both `key` fields appear,
values 1 then 2, in declaration order. -/
theorem claim_C10_witness :
    emit_object (PtrVal.vnodes tDup) =
      some (['{'] ++ ('"' :: (['k', 'e', 'y'] ++ ['"', ':', ' '])) ++ ['1'] ++ [',', ' '] ++
            ('"' :: (['k', 'e', 'y'] ++ ['"', ':', ' '])) ++ ['2'] ++ ['}']) :=
  claim_C10.1
    (Node.mk (some ['k', 'e', 'y']) (PtrVal.vint 1) none .t_to_object .t_to_integer)
    (Node.mk (some ['k', 'e', 'y']) (PtrVal.vint 2) none .t_to_object .t_to_integer)
    ['k', 'e', 'y'] ['k', 'e', 'y'] ['1'] ['2'] rfl rfl emit_json_key1 emit_json_key2
